import Mathlib

/-!
# Verification of the neuromorphic e-nose SNN software stack

This file gives a shallow embedding, in Lean 4, of the integer core of the
repository:

* `snn_infer_events`  — the int32-state LIF golden model
  (`src/models/golden_inference.py`);
* `snn_infer_int`     — the int16-state, 32-bit-intermediate LIF model used to
  generate RTL test vectors (`scripts/gen_snn_test_vectors.py`);
* `quantize_int8`     — symmetric int8 weight quantization
  (`src/models/export_weights.py`), with float arithmetic idealized as exact
  rationals;
* `FPGAEmulator`      — the AXI-Lite register / stream-FIFO protocol emulator
  (`src/fpga/fpga_emulator.py`, `src/fpga/regs.py`), with the float-backed
  inference call abstracted as an uninterpreted engine function.

Machine integers are embedded as unbounded `Int` together with explicit
two's-complement wrapping (`wrapW`) at the points where the numpy code narrows
to `int16`/`int32`.  The numpy arithmetic right shift `>>` on signed values is
floor division by a power of two (`asr`).  Spike-count accumulators are kept as
unbounded integers: both Python models store them in `int32`, whose wraparound
is unreachable for any window that terminates in practice and is not modeled.
-/

namespace ENose

/-- Two's-complement wrap of an unbounded integer to a `w`-bit signed value:
the unique representative of `x mod 2^w` in `[-2^(w-1), 2^(w-1))`. -/
def wrapW (w : Nat) (x : Int) : Int := (x + 2 ^ (w - 1)) % 2 ^ w - 2 ^ (w - 1)

/-- `np.int16` narrowing. -/
def toInt16 (x : Int) : Int := wrapW 16 x

/-- `np.int32` narrowing. -/
def toInt32 (x : Int) : Int := wrapW 32 x

/-- Arithmetic (sign-preserving) right shift, as numpy's `>>` on signed
integers: floor division by `2^s`. -/
def asr (v : Int) (s : Nat) : Int := v / 2 ^ s

/-- Decidable test that `x` fits in a signed 16-bit word. -/
def inRange16 (x : Int) : Bool := decide (-32768 ≤ x) && decide (x < 32768)

lemma two_pow_pos (n : Nat) : (0 : Int) < 2 ^ n := by positivity

lemma wrapW_eq_self {w : Nat} (hw : 0 < w) {x : Int}
    (h1 : -(2 ^ (w - 1)) ≤ x) (h2 : x < 2 ^ (w - 1)) : wrapW w x = x := by
  have hsplit : (2 : Int) ^ w = 2 ^ (w - 1) * 2 := by
    rw [← pow_succ]; congr 1; omega
  have hp := two_pow_pos (w - 1)
  unfold wrapW
  rw [Int.emod_eq_of_lt (by omega) (by omega)]
  omega

lemma wrapW_range {w : Nat} (hw : 0 < w) (x : Int) :
    -(2 ^ (w - 1)) ≤ wrapW w x ∧ wrapW w x < 2 ^ (w - 1) := by
  have hsplit : (2 : Int) ^ w = 2 ^ (w - 1) * 2 := by
    rw [← pow_succ]; congr 1; omega
  have hp := two_pow_pos (w - 1)
  have hW := two_pow_pos w
  have h1 := Int.emod_nonneg (x + 2 ^ (w - 1)) (by omega : (2 : Int) ^ w ≠ 0)
  have h2 := Int.emod_lt_of_pos (x + 2 ^ (w - 1)) hW
  unfold wrapW
  omega

lemma wrapW_emod (w : Nat) (x : Int) : wrapW w x % 2 ^ w = x % 2 ^ w := by
  unfold wrapW
  rw [Int.sub_emod, Int.emod_emod_of_dvd _ dvd_rfl, ← Int.sub_emod]
  simp

lemma wrapW_congr {w : Nat} {x y : Int} (h : x % 2 ^ w = y % 2 ^ w) :
    wrapW w x = wrapW w y := by
  unfold wrapW
  rw [← Int.emod_add_emod x, ← Int.emod_add_emod y, h]

lemma wrapW_add_right (w : Nat) (a b : Int) :
    wrapW w (a + wrapW w b) = wrapW w (a + b) :=
  wrapW_congr (by rw [Int.add_emod, wrapW_emod, ← Int.add_emod])

lemma wrapW_add_left (w : Nat) (a b : Int) :
    wrapW w (wrapW w a + b) = wrapW w (a + b) := by
  rw [add_comm (wrapW w a) b, wrapW_add_right, add_comm]

lemma toInt16_eq_self {x : Int} (h1 : -32768 ≤ x) (h2 : x < 32768) :
    toInt16 x = x :=
  wrapW_eq_self (by norm_num) (by norm_num [h1]) (by norm_num [h2])

lemma toInt32_eq_self {x : Int} (h1 : -2147483648 ≤ x) (h2 : x < 2147483648) :
    toInt32 x = x :=
  wrapW_eq_self (by norm_num) (by norm_num [h1]) (by norm_num [h2])

lemma toInt32_eq_self_of_range16 {x : Int} (h1 : -32768 ≤ x) (h2 : x < 32768) :
    toInt32 x = x :=
  toInt32_eq_self (by omega) (by omega)

lemma inRange16_iff {x : Int} : inRange16 x = true ↔ -32768 ≤ x ∧ x < 32768 := by
  simp [inRange16]

/-- The arithmetic shift of `v` lies between `v` and `0` (inclusive). -/
lemma asr_between (v : Int) (s : Nat) :
    (0 ≤ v → 0 ≤ asr v s ∧ asr v s ≤ v) ∧
    (v ≤ 0 → v ≤ asr v s ∧ asr v s ≤ 0) := by
  have hM := two_pow_pos s
  unfold asr
  refine ⟨fun h => ⟨Int.ediv_nonneg h (le_of_lt hM), Int.ediv_le_self _ h⟩, fun h => ?_⟩
  constructor
  · rw [Int.le_ediv_iff_mul_le hM]
    nlinarith
  · have : v / 2 ^ s < 1 := by
      rw [Int.ediv_lt_iff_lt_mul hM]; omega
    omega

lemma asr_range16 {v : Int} (s : Nat) (h1 : -32768 ≤ v) (h2 : v < 32768) :
    -32768 ≤ asr v s ∧ asr v s < 32768 := by
  have h := asr_between v s
  rcases le_or_lt 0 v with hv | hv
  · have := h.1 hv; omega
  · have := h.2 (le_of_lt hv); omega

/-- The leak result `v - asr v s` stays inside the signed 16-bit range. -/
lemma leak_range16 {v : Int} (s : Nat) (h1 : -32768 ≤ v) (h2 : v < 32768) :
    -32768 ≤ v - asr v s ∧ v - asr v s < 32768 := by
  have h := asr_between v s
  rcases le_or_lt 0 v with hv | hv
  · have := h.1 hv; omega
  · have := h.2 (le_of_lt hv); omega

/-! ## Predicted class: first-maximum argmax

`np.argmax` returns the index of the first occurrence of the maximum. -/

/-- Index of the first maximum of a list (`np.argmax`); `0` on `[]`. -/
def argmaxFirst : List Int → Nat
  | [] => 0
  | [_] => 0
  | x :: y :: ys =>
    let j := argmaxFirst (y :: ys)
    if x < (y :: ys).getD j 0 then j + 1 else 0

lemma argmaxFirst_lt_length : ∀ (l : List Int), l ≠ [] → argmaxFirst l < l.length
  | [_], _ => by simp [argmaxFirst]
  | _ :: y :: ys, _ => by
    have ih := argmaxFirst_lt_length (y :: ys) (by simp)
    simp only [argmaxFirst]
    split
    · simpa using Nat.succ_lt_succ ih
    · simp

lemma argmaxFirst_is_max :
    ∀ (l : List Int) (j : Nat), j < l.length →
      l.getD j 0 ≤ l.getD (argmaxFirst l) 0
  | [_], 0, _ => le_refl _
  | x :: y :: ys, j, hj => by
    have ih := fun k hk => argmaxFirst_is_max (y :: ys) k hk
    simp only [argmaxFirst]
    split
    · next hgt =>
      cases j with
      | zero => simpa using le_of_lt hgt
      | succ k =>
        have hk : k < (y :: ys).length := by simpa using hj
        simpa using ih k hk
    · next hle =>
      push_neg at hle
      cases j with
      | zero => simp
      | succ k =>
        have hk : k < (y :: ys).length := by simpa using hj
        have := ih k hk
        simp only [List.getD_cons_succ, List.getD_cons_zero]
        omega

lemma argmaxFirst_lt_of_lt :
    ∀ (l : List Int) (i : Nat), i < argmaxFirst l →
      l.getD i 0 < l.getD (argmaxFirst l) 0
  | [], i, hi => by simp [argmaxFirst] at hi
  | [_], i, hi => by simp [argmaxFirst] at hi
  | x :: y :: ys, i, hi => by
    have ih := fun k hk => argmaxFirst_lt_of_lt (y :: ys) k hk
    simp only [argmaxFirst] at hi ⊢
    split
    · next hgt =>
      cases i with
      | zero => simpa using hgt
      | succ k =>
        split at hi
        · have hk : k < argmaxFirst (y :: ys) := by omega
          simpa using ih k hk
        · omega
    · next hle =>
      split at hi <;> omega

lemma argmaxFirst_replicate_zero (n : Nat) (c : Int) :
    argmaxFirst (List.replicate n c) = 0 := by
  induction n with
  | zero => simp [argmaxFirst]
  | succ m ih =>
    cases m with
    | zero => simp [argmaxFirst, List.replicate]
    | succ k =>
      have hrep : List.replicate (k + 2) c = c :: c :: List.replicate k c := by
        simp [List.replicate_succ]
      rw [hrep]
      simp only [argmaxFirst]
      have hrep1 : (c :: List.replicate k c) = List.replicate (k + 1) c := by
        simp [List.replicate_succ]
      rw [hrep1, ih]
      simp

/-! ## Shared weight access

Weight matrices are lists of rows; both Python models index them as
`W[row][col]`.  Out-of-shape indices read `0`; both models use the same access
path, so the refinement results do not depend on shape side conditions. -/

/-- Entry `W[i][j]` of a row-major weight matrix. -/
def wEntry (W : List (List Int)) (i j : Nat) : Int := (W.getD i []).getD j 0

/-- Count update block, shared by all engine embeddings: each class counter is
incremented by one exactly when its output neuron fires this timestep
(`Cout += spikeO` over 0/1 spikes, resp. `Cout[on] += 1` under the fire
condition).  Both sources hold `Cout` in `np.int32`, so the accumulation
wraps at 32 bits. -/
def countsStep (Cout Vnew : List Int) (th : Int) (n : Nat) : List Int :=
  (List.range n).map (fun o =>
    toInt32 (Cout.getD o 0 + (if th ≤ Vnew.getD o 0 then 1 else 0)))

/-- Fire block, spike outputs, shared by the embeddings (the compare involves
no narrowing): spike exactly when `v_new >= threshold`. -/
def fireSpikes16 (Vnew : List Int) (th : Int) (n : Nat) : List Bool :=
  (List.range n).map (fun i => decide (th ≤ Vnew.getD i 0))

/-- Fire block, next membrane state, shared by the embeddings
(`np.where(spike == 1, 0, v_new)` resp. the explicit reset loop): hard reset
to `0` on spike, otherwise keep `v_new`. -/
def fireReset16 (Vnew : List Int) (th : Int) (n : Nat) : List Int :=
  (List.range n).map (fun i => if th ≤ Vnew.getD i 0 then 0 else Vnew.getD i 0)

/-! ## Int32 golden model: `snn_infer_events` (src/models/golden_inference.py)

State `Vh`, `Vo` and counters `Cout` are `np.int32` vectors.  The per-timestep
input is a list of source channel ids (one entry per input spike). -/

structure SNNParams where
  Nh : Nat := 32
  No : Nat := 3
  leak_h_shift : Nat := 4
  leak_o_shift : Nat := 4
  th_h : Int := 64
  th_o : Int := 64
  window_len : Nat := 10

structure SNNWeights where
  W1 : List (List Int)
  W2 : List (List Int)

/-- Hidden-layer membrane update of `snn_infer_events`: int32 elementwise
arithmetic, `Ih += W1[src]` per event then `Vh = Vh - (Vh >> shift) + Ih`. -/
def eventsHidden (p : SNNParams) (W1 : List (List Int)) (Vh : List Int)
    (srcs : List Nat) : List Int :=
  let ih := (List.range p.Nh).map (fun n =>
    srcs.foldl (fun acc src => toInt32 (acc + wEntry W1 src n)) 0)
  (List.range p.Nh).map (fun n =>
    toInt32 (toInt32 (Vh.getD n 0 - asr (Vh.getD n 0) p.leak_h_shift) + ih.getD n 0))

/-- Output-layer membrane update of `snn_infer_events`: the 0/1 hidden spike
vector is matrix-multiplied with `W2` in int32, then
`Vo = Vo - (Vo >> shift) + Io`. -/
def eventsOut (p : SNNParams) (W2 : List (List Int)) (Vo vh1 : List Int) :
    List Int :=
  let spikeH := (List.range p.Nh).map (fun n =>
    if p.th_h ≤ vh1.getD n 0 then (1 : Int) else 0)
  let iov := (List.range p.No).map (fun o =>
    (List.range p.Nh).foldl (fun acc h =>
      toInt32 (acc + spikeH.getD h 0 * wEntry W2 h o)) 0)
  (List.range p.No).map (fun o =>
    toInt32 (toInt32 (Vo.getD o 0 - asr (Vo.getD o 0) p.leak_o_shift) + iov.getD o 0))

/-- One timestep of `snn_infer_events` (hidden layer then output layer;
threshold compare, hard reset via `np.where`, count increment). -/
def eventsStep (p : SNNParams) (w : SNNWeights)
    (st : List Int × List Int × List Int) (srcs : List Nat) :
    List Int × List Int × List Int :=
  let Vh1 := eventsHidden p w.W1 st.1 srcs
  let Vo1 := eventsOut p w.W2 st.2.1 Vh1
  (fireReset16 Vh1 p.th_h p.Nh,
   fireReset16 Vo1 p.th_o p.No,
   countsStep st.2.2 Vo1 p.th_o p.No)

/-- `snn_infer_events`: runs at most `window_len` timesteps from zero state and
returns `(predicted class, conf_q0_8, per-class counts)` where
`conf_q0_8 = (counts[cls] << 8) // max(sum counts, 1)` (Python floor
division). -/
def snn_infer_events (events : List (List Nat)) (weights : SNNWeights)
    (p : SNNParams) : Nat × Int × List Int :=
  let T := min events.length p.window_len
  let final := (events.take T).foldl (eventsStep p weights)
    (List.replicate p.Nh 0, List.replicate p.No 0, List.replicate p.No 0)
  let Cout := final.2.2
  let cls := argmaxFirst Cout
  let s := Cout.foldl (· + ·) 0
  let conf := Int.fdiv (Cout.getD cls 0 * 256) (max s 1)
  (cls, conf, Cout)

/-! ## Int16 RTL-exact model: `asr16`, `snn_infer_int`
(scripts/gen_snn_test_vectors.py)

Membrane state is `np.int16`; every arithmetic step widens to `np.int32` and
narrows back to `np.int16`.  The per-timestep input is a 12-bit spike mask. -/

structure IntSNNParams where
  n_in : Nat := 12
  n_hidden : Nat := 32
  n_out : Nat := 3
  window_len : Nat := 10
  leak_h_shift : Nat := 4
  leak_o_shift : Nat := 4
  th_h : Int := 64
  th_o : Int := 64

/-- `asr16`: arithmetic right shift computed on a 32-bit intermediate and
narrowed to `int16` (the source's two sign branches compute the same
expression). -/
def asr16 (v : Int) (s : Nat) : Int := toInt16 (asr v s)

/-- Weighted-input block: for each set mask bit, add the weight row into the
accumulator, each addition computed in int32 and narrowed to int16. -/
def weightedInput16 (mask : Nat) (W : List (List Int)) (nIn nCols : Nat) :
    List Int :=
  (List.range nCols).map (fun n =>
    (List.range nIn).foldl (fun acc ch =>
      if mask.testBit ch then toInt16 (acc + wEntry W ch n) else acc) 0)

/-- Leak block: `v_leaked = int16(int32(v) - int32(asr16 v s))`. -/
def leak16 (V : List Int) (s : Nat) (n : Nat) : List Int :=
  (List.range n).map (fun i => toInt16 (V.getD i 0 - asr16 (V.getD i 0) s))

/-- Integrate block: `v_new = int16(int32(v_leaked) + int32(ih))`. -/
def integrate16 (Vleaked ih : List Int) (n : Nat) : List Int :=
  (List.range n).map (fun i => toInt16 (Vleaked.getD i 0 + ih.getD i 0))

/-- Output-layer weighted input: for each spiking hidden neuron, add its `W2`
row into the accumulator, each addition in int32 narrowed to int16. -/
def spikesInput16 (spikes : List Bool) (W : List (List Int))
    (nRows nCols : Nat) : List Int :=
  (List.range nCols).map (fun o =>
    (List.range nRows).foldl (fun acc h =>
      if spikes.getD h false then toInt16 (acc + wEntry W h o) else acc) 0)

/-- Hidden-layer membrane update of `snn_infer_int`: weighted input, leak and
integrate, all narrowed to int16 (the mask is reduced to its 12 significant
bits first, `mask = spike_masks[t] & 0xFFF`). -/
def intHidden (p : IntSNNParams) (W1 : List (List Int)) (Vh : List Int)
    (mask0 : Nat) : List Int :=
  integrate16 (leak16 Vh p.leak_h_shift p.n_hidden)
    (weightedInput16 (mask0 &&& 4095) W1 p.n_in p.n_hidden) p.n_hidden

/-- Output-layer membrane update of `snn_infer_int`: weighted input from the
hidden spikes of this timestep, leak and integrate, all narrowed to int16. -/
def intOut (p : IntSNNParams) (W2 : List (List Int)) (Vo vhNew : List Int) :
    List Int :=
  integrate16 (leak16 Vo p.leak_o_shift p.n_out)
    (spikesInput16 (fireSpikes16 vhNew p.th_h p.n_hidden) W2 p.n_hidden p.n_out)
    p.n_out

/-- One timestep of `snn_infer_int` (hidden layer then output layer). -/
def intStep (p : IntSNNParams) (W1 W2 : List (List Int))
    (st : List Int × List Int × List Int) (mask0 : Nat) :
    List Int × List Int × List Int :=
  let VhNew := intHidden p W1 st.1 mask0
  let VoNew := intOut p W2 st.2.1 VhNew
  (fireReset16 VhNew p.th_h p.n_hidden,
   fireReset16 VoNew p.th_o p.n_out,
   countsStep st.2.2 VoNew p.th_o p.n_out)

/-- `snn_infer_int`: runs at most `window_len` timesteps from zero state and
returns `(predicted class, per-class counts)` (the debug trace of the source
is omitted). -/
def snn_infer_int (spike_masks : List Nat) (W1 W2 : List (List Int))
    (p : IntSNNParams) : Nat × List Int :=
  let T := min spike_masks.length p.window_len
  let final := (spike_masks.take T).foldl (intStep p W1 W2)
    (List.replicate p.n_hidden 0, List.replicate p.n_out 0, List.replicate p.n_out 0)
  (argmaxFirst final.2.2, final.2.2)

/-! ## Exact-arithmetic instrumentation for the 16-bit width bound

`exactStep` is not source code: it replays the same timestep in unbounded
integer arithmetic and records whether every per-neuron integrated value
`v - (v >> shift) + weighted_input` fits in a signed 16-bit word.  This is the
formal reading of the data model's requirement that the membrane state be
width-bounded to 16 bits. -/

/-- Exact-arithmetic weighted input block (no narrowing). -/
def weightedInputExact (mask : Nat) (W : List (List Int)) (nIn nCols : Nat) :
    List Int :=
  (List.range nCols).map (fun n =>
    (List.range nIn).foldl (fun acc ch =>
      if mask.testBit ch then acc + wEntry W ch n else acc) 0)

/-- Exact-arithmetic leak-and-integrate block (no narrowing). -/
def integrateExact (V : List Int) (s : Nat) (ih : List Int) (n : Nat) :
    List Int :=
  (List.range n).map (fun i => V.getD i 0 - asr (V.getD i 0) s + ih.getD i 0)

/-- Exact-arithmetic output-layer weighted input block (no narrowing). -/
def spikesInputExact (spikes : List Bool) (W : List (List Int))
    (nRows nCols : Nat) : List Int :=
  (List.range nCols).map (fun o =>
    (List.range nRows).foldl (fun acc h =>
      if spikes.getD h false then acc + wEntry W h o else acc) 0)

/-- All of the first `n` entries fit in a signed 16-bit word. -/
def allRange16 (V : List Int) (n : Nat) : Bool :=
  (List.range n).all (fun i => inRange16 (V.getD i 0))

/-- Exact-arithmetic hidden-layer membrane update. -/
def exactHidden (p : IntSNNParams) (W1 : List (List Int)) (Vh : List Int)
    (mask0 : Nat) : List Int :=
  integrateExact Vh p.leak_h_shift
    (weightedInputExact (mask0 &&& 4095) W1 p.n_in p.n_hidden) p.n_hidden

/-- Exact-arithmetic output-layer membrane update. -/
def exactOut (p : IntSNNParams) (W2 : List (List Int)) (Vo vhNew : List Int) :
    List Int :=
  integrateExact Vo p.leak_o_shift
    (spikesInputExact (fireSpikes16 vhNew p.th_h p.n_hidden) W2 p.n_hidden p.n_out)
    p.n_out

def exactStep (p : IntSNNParams) (W1 W2 : List (List Int))
    (st : (List Int × List Int × List Int) × Bool) (mask0 : Nat) :
    (List Int × List Int × List Int) × Bool :=
  let VhNew := exactHidden p W1 st.1.1 mask0
  let VoNew := exactOut p W2 st.1.2.1 VhNew
  ((fireReset16 VhNew p.th_h p.n_hidden,
    fireReset16 VoNew p.th_o p.n_out,
    countsStep st.1.2.2 VoNew p.th_o p.n_out),
   st.2 && (allRange16 VhNew p.n_hidden && allRange16 VoNew p.n_out))

def exactRun (spike_masks : List Nat) (W1 W2 : List (List Int))
    (p : IntSNNParams) : (List Int × List Int × List Int) × Bool :=
  let T := min spike_masks.length p.window_len
  (spike_masks.take T).foldl (exactStep p W1 W2)
    ((List.replicate p.n_hidden 0, List.replicate p.n_out 0, List.replicate p.n_out 0), true)

/-- Decidable width-bound hypothesis: the whole run keeps every integrated
membrane value inside the signed 16-bit range. -/
def int16Sound (spike_masks : List Nat) (W1 W2 : List (List Int))
    (p : IntSNNParams) : Bool :=
  (exactRun spike_masks W1 W2 p).2

/-- The event list of a spike-mask word: the indices of its set bits among the
12 significant channels, in increasing channel order. -/
def maskToEvents (mask : Nat) : List Nat :=
  (List.range 12).filter (fun ch => mask.testBit ch)

/-- The parameter translation between the two engines: same hidden/output
sizes, window length, leak shifts and thresholds. -/
def paramsOfInt (p : IntSNNParams) : SNNParams :=
  { Nh := p.n_hidden, No := p.n_out, leak_h_shift := p.leak_h_shift,
    leak_o_shift := p.leak_o_shift, th_h := p.th_h, th_o := p.th_o,
    window_len := p.window_len }

/-! ## List access and fold lemmas -/

lemma wrapW_idem (w : Nat) (x : Int) : wrapW w (wrapW w x) = wrapW w x :=
  wrapW_congr (wrapW_emod w x)

lemma toInt16_add_right (a b : Int) : toInt16 (a + toInt16 b) = toInt16 (a + b) :=
  wrapW_add_right 16 a b

lemma toInt32_add_left (a b : Int) : toInt32 (toInt32 a + b) = toInt32 (a + b) :=
  wrapW_add_left 32 a b

lemma toInt32_add_right (a b : Int) : toInt32 (a + toInt32 b) = toInt32 (a + b) :=
  wrapW_add_right 32 a b

lemma getD_range_map {α : Type} (f : Nat → α) {n i : Nat} (d : α) (hi : i < n) :
    ((List.range n).map f).getD i d = f i := by
  have h1 : i < ((List.range n).map f).length := by simpa using hi
  rw [List.getD_eq_getElem?_getD, List.getElem?_eq_getElem h1]
  simp

lemma getD_range_map_ge {α : Type} (f : Nat → α) {n i : Nat} (d : α) (hi : n ≤ i) :
    ((List.range n).map f).getD i d = d := by
  rw [List.getD_eq_getElem?_getD, List.getElem?_eq_none (by simpa using hi)]
  rfl

lemma getD_replicate_split {α : Type} (c d : α) {n i : Nat} :
    (List.replicate n c).getD i d = if i < n then c else d := by
  rw [List.getD_eq_getElem?_getD, List.getElem?_replicate]
  split <;> rfl

lemma getD_replicate_zero {n i : Nat} :
    (List.replicate n (0 : Int)).getD i 0 = 0 := by
  rw [getD_replicate_split]; split <;> rfl

lemma range_map_eq_replicate {α : Type} {f : Nat → α} {n : Nat} {c : α}
    (h : ∀ i, i < n → f i = c) : (List.range n).map f = List.replicate n c := by
  have heq : (List.range n).map f = (List.range n).map (fun _ => c) :=
    List.map_congr_left (fun a ha => h a (List.mem_range.mp ha))
  rw [heq, List.map_const', List.length_range]

lemma foldl_wrap_guard (w : Nat) (l : List Nat) (g : Nat → Bool) (wf : Nat → Int) :
    ∀ a : Int,
      l.foldl (fun acc ch => if g ch then wrapW w (acc + wf ch) else acc) (wrapW w a)
        = wrapW w (l.foldl (fun acc ch => if g ch then acc + wf ch else acc) a) := by
  induction l with
  | nil => intro a; simp
  | cons x xs ih =>
    intro a
    by_cases hx : g x
    · simp only [List.foldl_cons, if_pos hx, wrapW_add_left]
      exact ih (a + wf x)
    · simp only [List.foldl_cons, if_neg hx]
      exact ih a

lemma foldl_wrap_add (w : Nat) (l : List Nat) (wf : Nat → Int) :
    ∀ a : Int,
      l.foldl (fun acc src => wrapW w (acc + wf src)) (wrapW w a)
        = wrapW w (l.foldl (fun acc src => acc + wf src) a) := by
  induction l with
  | nil => intro a; simp
  | cons x xs ih =>
    intro a
    simp only [List.foldl_cons, wrapW_add_left]
    exact ih (a + wf x)

lemma foldl_wrap_spikeMul (w : Nat) (l : List Nat) (g : Nat → Bool) (wf : Nat → Int) :
    ∀ a : Int,
      l.foldl (fun acc h => wrapW w (acc + (if g h then (1 : Int) else 0) * wf h)) (wrapW w a)
        = wrapW w (l.foldl (fun acc h => if g h then acc + wf h else acc) a) := by
  induction l with
  | nil => intro a; simp
  | cons x xs ih =>
    intro a
    by_cases hx : g x
    · simp only [List.foldl_cons, if_pos hx, one_mul, wrapW_add_left]
      exact ih (a + wf x)
    · simp only [List.foldl_cons, if_neg hx, zero_mul, add_zero, wrapW_idem]
      exact ih a

lemma foldl_guard_id (l : List Nat) (g : Nat → Bool) (f : Int → Nat → Int)
    (h : ∀ x ∈ l, g x = false) :
    ∀ a : Int, l.foldl (fun acc x => if g x then f acc x else acc) a = a := by
  induction l with
  | nil => intro a; rfl
  | cons x xs ih =>
    intro a
    have hx : g x = false := h x (by simp)
    simp only [List.foldl_cons, hx, Bool.false_eq_true, if_false]
    exact ih (fun y hy => h y (by simp [hy])) a

/-! ## Block-level agreement between the three arithmetic embeddings -/

lemma allRange16_getD {V : List Int} {n : Nat} (hok : allRange16 V n = true)
    {i : Nat} (hi : i < n) : -32768 ≤ V.getD i 0 ∧ V.getD i 0 < 32768 := by
  unfold allRange16 at hok
  exact inRange16_iff.mp (List.all_eq_true.mp hok i (List.mem_range.mpr hi))

lemma integrateExact_getD (V : List Int) (s : Nat) (ihE : List Int) {n i : Nat}
    (hi : i < n) :
    (integrateExact V s ihE n).getD i 0
      = V.getD i 0 - asr (V.getD i 0) s + ihE.getD i 0 := by
  unfold integrateExact; exact getD_range_map _ _ hi

lemma fireSpikes16_getD (Vnew : List Int) (th : Int) {n i : Nat} (hi : i < n) :
    (fireSpikes16 Vnew th n).getD i false = decide (th ≤ Vnew.getD i 0) := by
  unfold fireSpikes16; exact getD_range_map _ _ hi

lemma fireReset16_getD (Vnew : List Int) (th : Int) {n i : Nat} (hi : i < n) :
    (fireReset16 Vnew th n).getD i 0
      = if th ≤ Vnew.getD i 0 then 0 else Vnew.getD i 0 := by
  unfold fireReset16; exact getD_range_map _ _ hi

lemma weightedInput16_eq_exact (mask : Nat) (W : List (List Int)) (nIn nCols : Nat) :
    weightedInput16 mask W nIn nCols
      = (List.range nCols).map (fun i =>
          toInt16 ((weightedInputExact mask W nIn nCols).getD i 0)) := by
  unfold weightedInput16 weightedInputExact
  apply List.map_congr_left
  intro n hn
  rw [getD_range_map _ _ (List.mem_range.mp hn)]
  have key := foldl_wrap_guard 16 (List.range nIn) (mask.testBit)
    (fun ch => wEntry W ch n) 0
  have hz : wrapW 16 (0 : Int) = 0 := by decide
  rw [hz] at key
  exact key

lemma spikesInput16_eq_exact (spikes : List Bool) (W : List (List Int))
    (nRows nCols : Nat) :
    spikesInput16 spikes W nRows nCols
      = (List.range nCols).map (fun i =>
          toInt16 ((spikesInputExact spikes W nRows nCols).getD i 0)) := by
  unfold spikesInput16 spikesInputExact
  apply List.map_congr_left
  intro o ho
  rw [getD_range_map _ _ (List.mem_range.mp ho)]
  have key := foldl_wrap_guard 16 (List.range nRows) (fun h => spikes.getD h false)
    (fun h => wEntry W h o) 0
  have hz : wrapW 16 (0 : Int) = 0 := by decide
  rw [hz] at key
  exact key

lemma integrate16_eq_exact (V : List Int) (s : Nat) (ihE : List Int) (n : Nat)
    (hV : ∀ i, -32768 ≤ V.getD i 0 ∧ V.getD i 0 < 32768)
    (hok : allRange16 (integrateExact V s ihE n) n = true) :
    integrate16 (leak16 V s n) ((List.range n).map (fun i => toInt16 (ihE.getD i 0))) n
      = integrateExact V s ihE n := by
  unfold integrate16
  conv_rhs => unfold integrateExact
  apply List.map_congr_left
  intro i hi
  have hi' := List.mem_range.mp hi
  have hVi := hV i
  have hout := allRange16_getD hok hi'
  rw [integrateExact_getD V s ihE hi'] at hout
  have hasr := asr_range16 s hVi.1 hVi.2
  have hleak := leak_range16 s hVi.1 hVi.2
  have hleak16 : (leak16 V s n).getD i 0 = V.getD i 0 - asr (V.getD i 0) s := by
    unfold leak16
    rw [getD_range_map _ _ hi']
    unfold asr16
    rw [toInt16_eq_self hasr.1 hasr.2, toInt16_eq_self hleak.1 hleak.2]
  rw [hleak16, getD_range_map _ _ hi', toInt16_add_right,
    toInt16_eq_self hout.1 hout.2]

lemma foldl_toInt16_guard0 (l : List Nat) (g : Nat → Bool) (wf : Nat → Int) :
    l.foldl (fun acc ch => if g ch then toInt16 (acc + wf ch) else acc) 0
      = toInt16 (l.foldl (fun acc ch => if g ch then acc + wf ch else acc) 0) := by
  have h := foldl_wrap_guard 16 l g wf 0
  have hz : wrapW 16 (0 : Int) = 0 := by decide
  rw [hz] at h
  exact h

lemma foldl_toInt32_guard0 (l : List Nat) (g : Nat → Bool) (wf : Nat → Int) :
    l.foldl (fun acc ch => if g ch then toInt32 (acc + wf ch) else acc) 0
      = toInt32 (l.foldl (fun acc ch => if g ch then acc + wf ch else acc) 0) := by
  have h := foldl_wrap_guard 32 l g wf 0
  have hz : wrapW 32 (0 : Int) = 0 := by decide
  rw [hz] at h
  exact h

lemma foldl_toInt32_add0 (l : List Nat) (wf : Nat → Int) :
    l.foldl (fun acc src => toInt32 (acc + wf src)) 0
      = toInt32 (l.foldl (fun acc src => acc + wf src) 0) := by
  have h := foldl_wrap_add 32 l wf 0
  have hz : wrapW 32 (0 : Int) = 0 := by decide
  rw [hz] at h
  exact h

lemma foldl_toInt32_spikeMul0 (l : List Nat) (g : Nat → Bool) (wf : Nat → Int) :
    l.foldl (fun acc h => toInt32 (acc + (if g h then (1 : Int) else 0) * wf h)) 0
      = toInt32 (l.foldl (fun acc h => if g h then acc + wf h else acc) 0) := by
  have h := foldl_wrap_spikeMul 32 l g wf 0
  have hz : wrapW 32 (0 : Int) = 0 := by decide
  rw [hz] at h
  exact h

lemma foldl_filter_guard {β : Type} (l : List β) (g : β → Bool) (f : Int → β → Int) :
    ∀ a : Int,
      (l.filter g).foldl f a = l.foldl (fun acc x => if g x then f acc x else acc) a := by
  induction l with
  | nil => intro a; rfl
  | cons x xs ih =>
    intro a
    by_cases hx : g x = true
    · simp only [List.filter_cons, if_pos hx, List.foldl_cons, hx, if_true]
      exact ih (f a x)
    · simp only [List.filter_cons, if_neg hx, List.foldl_cons, hx,
        Bool.false_eq_true, if_false]
      exact ih a

lemma testBit_and_4095 {m ch : Nat} (h : ch < 12) :
    (m &&& 4095).testBit ch = m.testBit ch := by
  rw [Nat.testBit_and]
  have h4 : (4095 : Nat).testBit ch = true := by
    have h12 : (4095 : Nat) = 2 ^ 12 - 1 := rfl
    rw [h12, Nat.testBit_two_pow_sub_one]
    simpa using h
  simp [h4]

lemma weightedInputExact_getD (mask : Nat) (W : List (List Int)) (nIn : Nat)
    {nCols n : Nat} (hn : n < nCols) :
    (weightedInputExact mask W nIn nCols).getD n 0
      = (List.range nIn).foldl
          (fun acc ch => if mask.testBit ch then acc + wEntry W ch n else acc) 0 := by
  unfold weightedInputExact; exact getD_range_map _ _ hn

lemma spikesInputExact_getD (spikes : List Bool) (W : List (List Int)) (nRows : Nat)
    {nCols o : Nat} (ho : o < nCols) :
    (spikesInputExact spikes W nRows nCols).getD o 0
      = (List.range nRows).foldl
          (fun acc h => if spikes.getD h false then acc + wEntry W h o else acc) 0 := by
  unfold spikesInputExact; exact getD_range_map _ _ ho

/-- The int16 hidden-layer update agrees with the exact one when every
integrated value of this timestep fits in 16 bits. -/
lemma intHidden_agree (p : IntSNNParams) (W1 : List (List Int)) (Vh : List Int)
    (m : Nat) (hV : ∀ i, -32768 ≤ Vh.getD i 0 ∧ Vh.getD i 0 < 32768)
    (hok : allRange16 (exactHidden p W1 Vh m) p.n_hidden = true) :
    intHidden p W1 Vh m = exactHidden p W1 Vh m := by
  unfold intHidden exactHidden
  rw [weightedInput16_eq_exact]
  exact integrate16_eq_exact _ _ _ _ hV hok

/-- The int16 output-layer update agrees with the exact one when every
integrated value of this timestep fits in 16 bits. -/
lemma intOut_agree (p : IntSNNParams) (W2 : List (List Int)) (Vo vhNew : List Int)
    (hV : ∀ i, -32768 ≤ Vo.getD i 0 ∧ Vo.getD i 0 < 32768)
    (hok : allRange16 (exactOut p W2 Vo vhNew) p.n_out = true) :
    intOut p W2 Vo vhNew = exactOut p W2 Vo vhNew := by
  unfold intOut exactOut
  rw [spikesInput16_eq_exact]
  exact integrate16_eq_exact _ _ _ _ hV hok

/-- The int32 hidden-layer update of the events model agrees with the exact
one on the events of a 12-bit mask, when every integrated value of this
timestep fits in 16 bits. -/
lemma eventsHidden_agree (p : IntSNNParams) (hn12 : p.n_in = 12)
    (W1 : List (List Int)) (Vh : List Int) (m : Nat)
    (hV : ∀ i, -32768 ≤ Vh.getD i 0 ∧ Vh.getD i 0 < 32768)
    (hok : allRange16 (exactHidden p W1 Vh m) p.n_hidden = true) :
    eventsHidden (paramsOfInt p) W1 Vh (maskToEvents m) = exactHidden p W1 Vh m := by
  have hNh : (paramsOfInt p).Nh = p.n_hidden := rfl
  have hsh : (paramsOfInt p).leak_h_shift = p.leak_h_shift := rfl
  simp only [eventsHidden, hNh, hsh]
  have hih : (List.range p.n_hidden).map (fun n =>
      (maskToEvents m).foldl (fun acc src => toInt32 (acc + wEntry W1 src n)) 0)
      = (List.range p.n_hidden).map (fun n =>
          toInt32 ((weightedInputExact (m &&& 4095) W1 p.n_in p.n_hidden).getD n 0)) := by
    apply List.map_congr_left
    intro n hn
    have hn' := List.mem_range.mp hn
    rw [weightedInputExact_getD _ _ _ hn']
    unfold maskToEvents
    rw [foldl_filter_guard, foldl_toInt32_guard0]
    congr 1
    rw [hn12]
    apply List.foldl_ext
    intro a ch hch
    rw [testBit_and_4095 (List.mem_range.mp hch)]
  rw [hih]
  unfold exactHidden integrateExact
  apply List.map_congr_left
  intro i hi
  have hi' := List.mem_range.mp hi
  have hVi := hV i
  have hleak := leak_range16 p.leak_h_shift hVi.1 hVi.2
  have hout := allRange16_getD hok hi'
  unfold exactHidden at hout
  rw [integrateExact_getD _ _ _ hi'] at hout
  rw [getD_range_map _ _ hi', toInt32_eq_self_of_range16 hleak.1 hleak.2,
    toInt32_add_right, toInt32_eq_self_of_range16 hout.1 hout.2]

/-- The int32 output-layer update of the events model agrees with the exact
one, when every integrated value of this timestep fits in 16 bits. -/
lemma eventsOut_agree (p : IntSNNParams) (W2 : List (List Int))
    (Vo vhNew : List Int)
    (hV : ∀ i, -32768 ≤ Vo.getD i 0 ∧ Vo.getD i 0 < 32768)
    (hok : allRange16 (exactOut p W2 Vo vhNew) p.n_out = true) :
    eventsOut (paramsOfInt p) W2 Vo vhNew = exactOut p W2 Vo vhNew := by
  have hNh : (paramsOfInt p).Nh = p.n_hidden := rfl
  have hNo : (paramsOfInt p).No = p.n_out := rfl
  have hso : (paramsOfInt p).leak_o_shift = p.leak_o_shift := rfl
  have hth : (paramsOfInt p).th_h = p.th_h := rfl
  simp only [eventsOut, hNh, hNo, hso, hth]
  have hiov : (List.range p.n_out).map (fun o =>
      (List.range p.n_hidden).foldl (fun acc h =>
        toInt32 (acc + ((List.range p.n_hidden).map (fun n =>
          if p.th_h ≤ vhNew.getD n 0 then (1 : Int) else 0)).getD h 0 * wEntry W2 h o)) 0)
      = (List.range p.n_out).map (fun o =>
          toInt32 ((spikesInputExact (fireSpikes16 vhNew p.th_h p.n_hidden) W2
            p.n_hidden p.n_out).getD o 0)) := by
    apply List.map_congr_left
    intro o ho
    have ho' := List.mem_range.mp ho
    rw [spikesInputExact_getD _ _ _ ho']
    have hbody : (List.range p.n_hidden).foldl (fun acc h =>
        toInt32 (acc + ((List.range p.n_hidden).map (fun n =>
          if p.th_h ≤ vhNew.getD n 0 then (1 : Int) else 0)).getD h 0 * wEntry W2 h o)) 0
        = (List.range p.n_hidden).foldl (fun acc h =>
            toInt32 (acc + (if decide (p.th_h ≤ vhNew.getD h 0) then (1 : Int) else 0)
              * wEntry W2 h o)) 0 := by
      apply List.foldl_ext
      intro a h hh
      rw [getD_range_map _ _ (List.mem_range.mp hh)]
      by_cases hc : p.th_h ≤ vhNew.getD h 0 <;> simp [hc]
    rw [hbody, foldl_toInt32_spikeMul0]
    congr 1
    apply List.foldl_ext
    intro a h hh
    rw [fireSpikes16_getD _ _ (List.mem_range.mp hh)]
  rw [hiov]
  unfold exactOut integrateExact
  apply List.map_congr_left
  intro i hi
  have hi' := List.mem_range.mp hi
  have hVi := hV i
  have hleak := leak_range16 p.leak_o_shift hVi.1 hVi.2
  have hout := allRange16_getD hok hi'
  unfold exactOut at hout
  rw [integrateExact_getD _ _ _ hi'] at hout
  rw [getD_range_map _ _ hi', toInt32_eq_self_of_range16 hleak.1 hleak.2,
    toInt32_add_right, toInt32_eq_self_of_range16 hout.1 hout.2]

/-- Invariant carried across timesteps: every membrane potential (hidden and
output) of the state fits in a signed 16-bit word. -/
def stInv (st : List Int × List Int × List Int) : Prop :=
  (∀ i : Nat, -32768 ≤ st.1.getD i 0 ∧ st.1.getD i 0 < 32768) ∧
  (∀ i : Nat, -32768 ≤ st.2.1.getD i 0 ∧ st.2.1.getD i 0 < 32768)

lemma fireReset16_bounds (Vnew : List Int) (th : Int) (n : Nat)
    (hok : allRange16 Vnew n = true) :
    ∀ i, -32768 ≤ (fireReset16 Vnew th n).getD i 0 ∧
      (fireReset16 Vnew th n).getD i 0 < 32768 := by
  intro i
  by_cases hi : i < n
  · rw [fireReset16_getD _ _ hi]
    have h := allRange16_getD hok hi
    by_cases hc : th ≤ Vnew.getD i 0
    · rw [if_pos hc]; exact ⟨by norm_num, by norm_num⟩
    · rw [if_neg hc]; exact h
  · unfold fireReset16
    rw [getD_range_map_ge _ _ (le_of_not_lt hi)]
    norm_num

lemma exactStep_snd (p : IntSNNParams) (W1 W2 : List (List Int))
    (st : (List Int × List Int × List Int) × Bool) (m : Nat) :
    (exactStep p W1 W2 st m).2
      = (st.2 && (allRange16 (exactHidden p W1 st.1.1 m) p.n_hidden
          && allRange16 (exactOut p W2 st.1.2.1 (exactHidden p W1 st.1.1 m))
              p.n_out)) := rfl

lemma exactStep_ok_parts (p : IntSNNParams) (W1 W2 : List (List Int))
    (st : List Int × List Int × List Int) (ok : Bool) (m : Nat)
    (hok : (exactStep p W1 W2 (st, ok) m).2 = true) :
    ok = true ∧
    allRange16 (exactHidden p W1 st.1 m) p.n_hidden = true ∧
    allRange16 (exactOut p W2 st.2.1 (exactHidden p W1 st.1 m)) p.n_out = true := by
  have e2 : (exactStep p W1 W2 (st, ok) m).2
      = (ok && (allRange16 (exactHidden p W1 st.1 m) p.n_hidden
          && allRange16 (exactOut p W2 st.2.1 (exactHidden p W1 st.1 m)) p.n_out)) := rfl
  rw [e2, Bool.and_eq_true, Bool.and_eq_true] at hok
  exact ⟨hok.1, hok.2.1, hok.2.2⟩

lemma intStep_agree (p : IntSNNParams) (W1 W2 : List (List Int))
    (st : List Int × List Int × List Int) (ok : Bool) (m : Nat)
    (hinv : stInv st)
    (hok : (exactStep p W1 W2 (st, ok) m).2 = true) :
    intStep p W1 W2 st m = (exactStep p W1 W2 (st, ok) m).1 := by
  obtain ⟨-, hokH, hokO⟩ := exactStep_ok_parts p W1 W2 st ok m hok
  have hH := intHidden_agree p W1 st.1 m hinv.1 hokH
  have hO := intOut_agree p W2 st.2.1 (exactHidden p W1 st.1 m) hinv.2 hokO
  show (fireReset16 (intHidden p W1 st.1 m) p.th_h p.n_hidden,
        fireReset16 (intOut p W2 st.2.1 (intHidden p W1 st.1 m)) p.th_o p.n_out,
        countsStep st.2.2 (intOut p W2 st.2.1 (intHidden p W1 st.1 m)) p.th_o p.n_out)
      = (fireReset16 (exactHidden p W1 st.1 m) p.th_h p.n_hidden,
         fireReset16 (exactOut p W2 st.2.1 (exactHidden p W1 st.1 m)) p.th_o p.n_out,
         countsStep st.2.2 (exactOut p W2 st.2.1 (exactHidden p W1 st.1 m)) p.th_o p.n_out)
  rw [hH, hO]

lemma eventsStep_agree (p : IntSNNParams) (hn12 : p.n_in = 12)
    (W1 W2 : List (List Int))
    (st : List Int × List Int × List Int) (ok : Bool) (m : Nat)
    (hinv : stInv st)
    (hok : (exactStep p W1 W2 (st, ok) m).2 = true) :
    eventsStep (paramsOfInt p) ⟨W1, W2⟩ st (maskToEvents m)
      = (exactStep p W1 W2 (st, ok) m).1 := by
  obtain ⟨-, hokH, hokO⟩ := exactStep_ok_parts p W1 W2 st ok m hok
  have hH := eventsHidden_agree p hn12 W1 st.1 m hinv.1 hokH
  have hO := eventsOut_agree p W2 st.2.1 (exactHidden p W1 st.1 m) hinv.2 hokO
  show (fireReset16 (eventsHidden (paramsOfInt p) W1 st.1 (maskToEvents m))
          (paramsOfInt p).th_h (paramsOfInt p).Nh,
        fireReset16 (eventsOut (paramsOfInt p) W2 st.2.1
          (eventsHidden (paramsOfInt p) W1 st.1 (maskToEvents m)))
          (paramsOfInt p).th_o (paramsOfInt p).No,
        countsStep st.2.2 (eventsOut (paramsOfInt p) W2 st.2.1
          (eventsHidden (paramsOfInt p) W1 st.1 (maskToEvents m)))
          (paramsOfInt p).th_o (paramsOfInt p).No)
      = (fireReset16 (exactHidden p W1 st.1 m) p.th_h p.n_hidden,
         fireReset16 (exactOut p W2 st.2.1 (exactHidden p W1 st.1 m)) p.th_o p.n_out,
         countsStep st.2.2 (exactOut p W2 st.2.1 (exactHidden p W1 st.1 m)) p.th_o p.n_out)
  rw [hH, hO]
  rfl

lemma exactStep_inv (p : IntSNNParams) (W1 W2 : List (List Int))
    (st : List Int × List Int × List Int) (ok : Bool) (m : Nat)
    (hok : (exactStep p W1 W2 (st, ok) m).2 = true) :
    stInv (exactStep p W1 W2 (st, ok) m).1 := by
  obtain ⟨-, hokH, hokO⟩ := exactStep_ok_parts p W1 W2 st ok m hok
  exact ⟨fireReset16_bounds _ p.th_h _ hokH, fireReset16_bounds _ p.th_o _ hokO⟩

lemma foldl_exactStep_false (p : IntSNNParams) (W1 W2 : List (List Int)) :
    ∀ (masks : List Nat) (st : List Int × List Int × List Int),
      (masks.foldl (exactStep p W1 W2) (st, false)).2 = false := by
  intro masks
  induction masks with
  | nil => intro st; rfl
  | cons m ms ih =>
    intro st
    rw [List.foldl_cons]
    have h2 : (exactStep p W1 W2 (st, false) m).2 = false := by
      rw [exactStep_snd]
      exact Bool.false_and _
    have h : exactStep p W1 W2 (st, false) m
        = ((exactStep p W1 W2 (st, false) m).1, false) := by
      calc exactStep p W1 W2 (st, false) m
          = ((exactStep p W1 W2 (st, false) m).1,
             (exactStep p W1 W2 (st, false) m).2) := rfl
        _ = ((exactStep p W1 W2 (st, false) m).1, false) := by rw [h2]
    rw [h]
    exact ih _

lemma run_agree (p : IntSNNParams) (W1 W2 : List (List Int)) (hn12 : p.n_in = 12) :
    ∀ (masks : List Nat) (st : List Int × List Int × List Int) (ok : Bool),
      stInv st →
      (masks.foldl (exactStep p W1 W2) (st, ok)).2 = true →
      masks.foldl (intStep p W1 W2) st
          = (masks.foldl (exactStep p W1 W2) (st, ok)).1 ∧
      (masks.map maskToEvents).foldl (eventsStep (paramsOfInt p) ⟨W1, W2⟩) st
          = (masks.foldl (exactStep p W1 W2) (st, ok)).1 := by
  intro masks
  induction masks with
  | nil => intro st ok hinv hok; exact ⟨rfl, rfl⟩
  | cons m ms ih =>
    intro st ok hinv hok
    rw [List.foldl_cons] at hok
    have hstep_ok : (exactStep p W1 W2 (st, ok) m).2 = true := by
      by_contra hne
      have hfalse : (exactStep p W1 W2 (st, ok) m).2 = false := by
        cases hb : (exactStep p W1 W2 (st, ok) m).2
        · rfl
        · exact absurd hb hne
      have heq : exactStep p W1 W2 (st, ok) m
          = ((exactStep p W1 W2 (st, ok) m).1, false) := by
        calc exactStep p W1 W2 (st, ok) m
            = ((exactStep p W1 W2 (st, ok) m).1,
               (exactStep p W1 W2 (st, ok) m).2) := rfl
          _ = ((exactStep p W1 W2 (st, ok) m).1, false) := by rw [hfalse]
      rw [heq, foldl_exactStep_false] at hok
      exact Bool.false_ne_true hok
    have hpair : exactStep p W1 W2 (st, ok) m
        = ((exactStep p W1 W2 (st, ok) m).1, true) := by
      calc exactStep p W1 W2 (st, ok) m
          = ((exactStep p W1 W2 (st, ok) m).1,
             (exactStep p W1 W2 (st, ok) m).2) := rfl
        _ = ((exactStep p W1 W2 (st, ok) m).1, true) := by rw [hstep_ok]
    rw [hpair] at hok
    have hinv' := exactStep_inv p W1 W2 st ok m hstep_ok
    have hrec := ih (exactStep p W1 W2 (st, ok) m).1 true hinv' hok
    have hint := intStep_agree p W1 W2 st ok m hinv hstep_ok
    have hev := eventsStep_agree p hn12 W1 W2 st ok m hinv hstep_ok
    constructor
    · rw [List.foldl_cons, hint, List.foldl_cons, hpair]
      exact hrec.1
    · rw [List.map_cons, List.foldl_cons, hev, List.foldl_cons, hpair]
      exact hrec.2

lemma stInv_zero (nh no : Nat) :
    stInv (List.replicate nh (0 : Int), List.replicate no (0 : Int),
      List.replicate no (0 : Int)) := by
  constructor <;> intro i <;> rw [getD_replicate_zero] <;> norm_num

/-- C1: under the data model's 16-bit width bound on the membrane state
(`int16Sound`, checked over the exact run), the int32-state golden model
`snn_infer_events` and the int16-state RTL model `snn_infer_int`, fed the same
window, the same weight pair and the same parameters, return the same
predicted class and the same per-class spike counts. -/
theorem c1_fixed_point_engines_agree (spike_masks : List Nat)
    (W1 W2 : List (List Int)) (p : IntSNNParams) (hn12 : p.n_in = 12)
    (hsound : int16Sound spike_masks W1 W2 p = true) :
    (snn_infer_events (spike_masks.map maskToEvents) ⟨W1, W2⟩ (paramsOfInt p)).1
        = (snn_infer_int spike_masks W1 W2 p).1 ∧
    (snn_infer_events (spike_masks.map maskToEvents) ⟨W1, W2⟩ (paramsOfInt p)).2.2
        = (snn_infer_int spike_masks W1 W2 p).2 := by
  unfold int16Sound exactRun at hsound
  have hNh : (paramsOfInt p).Nh = p.n_hidden := rfl
  have hNo : (paramsOfInt p).No = p.n_out := rfl
  have hwl : (paramsOfInt p).window_len = p.window_len := rfl
  have hlen : (spike_masks.map maskToEvents).length = spike_masks.length :=
    List.length_map _ _
  have hrun := run_agree p W1 W2 hn12
    (spike_masks.take (min spike_masks.length p.window_len))
    (List.replicate p.n_hidden 0, List.replicate p.n_out 0, List.replicate p.n_out 0)
    true (stInv_zero p.n_hidden p.n_out) hsound
  have htake : (spike_masks.map maskToEvents).take
      (min (spike_masks.map maskToEvents).length (paramsOfInt p).window_len)
      = (spike_masks.take (min spike_masks.length p.window_len)).map maskToEvents := by
    rw [hwl, hlen, List.map_take]
  simp only [snn_infer_events, snn_infer_int]
  rw [htake, hNh, hNo, hrun.2, hrun.1]
  exact ⟨rfl, rfl⟩

/-- C1 witness: a concrete two-timestep window on which the width bound holds
and both engines agree, by the theorem. -/
theorem c1_fixed_point_engines_agree_witness :
    int16Sound [1, 1] (List.replicate 12 [70]) [[80]]
        ⟨12, 1, 1, 2, 4, 4, 64, 64⟩ = true ∧
    ((snn_infer_events ([1, 1].map maskToEvents)
        ⟨List.replicate 12 [70], [[80]]⟩ (paramsOfInt ⟨12, 1, 1, 2, 4, 4, 64, 64⟩)).1
      = (snn_infer_int [1, 1] (List.replicate 12 [70]) [[80]]
          ⟨12, 1, 1, 2, 4, 4, 64, 64⟩).1 ∧
     (snn_infer_events ([1, 1].map maskToEvents)
        ⟨List.replicate 12 [70], [[80]]⟩ (paramsOfInt ⟨12, 1, 1, 2, 4, 4, 64, 64⟩)).2.2
      = (snn_infer_int [1, 1] (List.replicate 12 [70]) [[80]]
          ⟨12, 1, 1, 2, 4, 4, 64, 64⟩).2) :=
  ⟨by decide, c1_fixed_point_engines_agree [1, 1] (List.replicate 12 [70]) [[80]]
      ⟨12, 1, 1, 2, 4, 4, 64, 64⟩ rfl (by decide)⟩

/-! ## C2: the per-timestep, per-neuron layer update -/

/-- C2 counterexample: the claim's exact integrate equation
`v_new = v_leaked + weighted_input` (with spike exactly when
`v_new >= threshold`) fails on the code: at membrane potential `32000`,
leak shift `15`, threshold `64`, and the weighted input `1524` produced by an
all-ones mask with twelve int8 weights of `127`, the exact `v_new` is `33524`
(which the claim says must spike), but the engine narrows it to int16,
obtaining `-32012`, and does not spike. -/
theorem c2_layer_update_counterexample :
    64 ≤ ([(32000 : Int)].getD 0 0 - asr ([(32000 : Int)].getD 0 0) 15
        + (weightedInput16 4095 (List.replicate 12 [127]) 12 1).getD 0 0) ∧
    (fireSpikes16 (integrate16 (leak16 [(32000 : Int)] 15 1)
        (weightedInput16 4095 (List.replicate 12 [127]) 12 1) 1) 64 1).getD 0 false
      = false := by
  constructor
  · decide
  · decide

/-- C2 (amended): for membrane potentials inside the signed 16-bit range (the
values the state can actually hold), the per-neuron layer update of the
fixed-point engine satisfies: `v_leaked = v - asr v shift` exactly (the
sign-preserving shift and its 32-bit intermediates lose nothing),
`v_new = wrap16 (v_leaked + weighted_input)` (two's-complement truncation on
the narrowing back to int16), the neuron spikes exactly when
`v_new >= threshold`, and its potential becomes `0` on a spike and `v_new`
otherwise. -/
theorem c2_layer_update (V ih : List Int) (s : Nat) (th : Int) (n i : Nat)
    (hi : i < n) (hv1 : -32768 ≤ V.getD i 0) (hv2 : V.getD i 0 < 32768) :
    (leak16 V s n).getD i 0 = V.getD i 0 - asr (V.getD i 0) s ∧
    (integrate16 (leak16 V s n) ih n).getD i 0
      = toInt16 ((V.getD i 0 - asr (V.getD i 0) s) + ih.getD i 0) ∧
    ((fireSpikes16 (integrate16 (leak16 V s n) ih n) th n).getD i false = true
      ↔ th ≤ toInt16 ((V.getD i 0 - asr (V.getD i 0) s) + ih.getD i 0)) ∧
    (fireReset16 (integrate16 (leak16 V s n) ih n) th n).getD i 0
      = (if th ≤ toInt16 ((V.getD i 0 - asr (V.getD i 0) s) + ih.getD i 0) then 0
         else toInt16 ((V.getD i 0 - asr (V.getD i 0) s) + ih.getD i 0)) := by
  have hasr := asr_range16 s hv1 hv2
  have hleak := leak_range16 s hv1 hv2
  have hleak16 : (leak16 V s n).getD i 0 = V.getD i 0 - asr (V.getD i 0) s := by
    unfold leak16
    rw [getD_range_map _ _ hi]
    unfold asr16
    rw [toInt16_eq_self hasr.1 hasr.2, toInt16_eq_self hleak.1 hleak.2]
  have hint : (integrate16 (leak16 V s n) ih n).getD i 0
      = toInt16 ((V.getD i 0 - asr (V.getD i 0) s) + ih.getD i 0) := by
    unfold integrate16
    rw [getD_range_map _ _ hi, hleak16]
  refine ⟨hleak16, hint, ?_, ?_⟩
  · rw [fireSpikes16_getD _ _ hi, hint]
    exact decide_eq_true_iff
  · rw [fireReset16_getD _ _ hi, hint]

/-- C2 witness: the amended update law evaluated at a concrete in-range
state. -/
theorem c2_layer_update_witness :
    ((0 : Nat) < 1 ∧ -32768 ≤ [(100 : Int)].getD 0 0 ∧ [(100 : Int)].getD 0 0 < 32768) ∧
    ((leak16 [(100 : Int)] 4 1).getD 0 0
        = [(100 : Int)].getD 0 0 - asr ([(100 : Int)].getD 0 0) 4 ∧
     (integrate16 (leak16 [(100 : Int)] 4 1) [(20 : Int)] 1).getD 0 0
        = toInt16 (([(100 : Int)].getD 0 0 - asr ([(100 : Int)].getD 0 0) 4)
            + [(20 : Int)].getD 0 0) ∧
     ((fireSpikes16 (integrate16 (leak16 [(100 : Int)] 4 1) [(20 : Int)] 1) 64 1).getD
          0 false = true
        ↔ 64 ≤ toInt16 (([(100 : Int)].getD 0 0 - asr ([(100 : Int)].getD 0 0) 4)
            + [(20 : Int)].getD 0 0)) ∧
     (fireReset16 (integrate16 (leak16 [(100 : Int)] 4 1) [(20 : Int)] 1) 64 1).getD 0 0
        = (if 64 ≤ toInt16 (([(100 : Int)].getD 0 0 - asr ([(100 : Int)].getD 0 0) 4)
              + [(20 : Int)].getD 0 0) then 0
           else toInt16 (([(100 : Int)].getD 0 0 - asr ([(100 : Int)].getD 0 0) 4)
              + [(20 : Int)].getD 0 0))) :=
  ⟨⟨by decide, by decide, by decide⟩,
   c2_layer_update [(100 : Int)] [(20 : Int)] 4 64 1 0 (by decide) (by decide) (by decide)⟩

/-! ## C6: first-maximum argmax of the produced counts -/

/-- C6: the class returned by `snn_infer_int` is the first maximum of the
returned per-class counts: no count exceeds it, and every earlier class has a
strictly smaller count. -/
theorem c6_argmax_first_maximum (spike_masks : List Nat)
    (W1 W2 : List (List Int)) (p : IntSNNParams) :
    (∀ j, j < (snn_infer_int spike_masks W1 W2 p).2.length →
      (snn_infer_int spike_masks W1 W2 p).2.getD j 0
        ≤ (snn_infer_int spike_masks W1 W2 p).2.getD
            (snn_infer_int spike_masks W1 W2 p).1 0) ∧
    (∀ i, i < (snn_infer_int spike_masks W1 W2 p).1 →
      (snn_infer_int spike_masks W1 W2 p).2.getD i 0
        < (snn_infer_int spike_masks W1 W2 p).2.getD
            (snn_infer_int spike_masks W1 W2 p).1 0) := by
  have hfst : (snn_infer_int spike_masks W1 W2 p).1
      = argmaxFirst (snn_infer_int spike_masks W1 W2 p).2 := rfl
  rw [hfst]
  exact ⟨fun j hj => argmaxFirst_is_max _ j hj,
         fun i hi => argmaxFirst_lt_of_lt _ i hi⟩

/-- C6 witness: the first-maximum property evaluated on a one-timestep
window where only class 0 fires. -/
theorem c6_argmax_first_maximum_witness :
    (1 < (snn_infer_int [4095] (List.replicate 12 [70]) [[80, 0, 0]]
        ⟨12, 1, 3, 1, 4, 4, 64, 64⟩).2.length) ∧
    (snn_infer_int [4095] (List.replicate 12 [70]) [[80, 0, 0]]
        ⟨12, 1, 3, 1, 4, 4, 64, 64⟩).2.getD 1 0
      ≤ (snn_infer_int [4095] (List.replicate 12 [70]) [[80, 0, 0]]
          ⟨12, 1, 3, 1, 4, 4, 64, 64⟩).2.getD
          (snn_infer_int [4095] (List.replicate 12 [70]) [[80, 0, 0]]
            ⟨12, 1, 3, 1, 4, 4, 64, 64⟩).1 0 :=
  ⟨by decide,
   (c6_argmax_first_maximum [4095] (List.replicate 12 [70]) [[80, 0, 0]]
     ⟨12, 1, 3, 1, 4, 4, 64, 64⟩).1 1 (by decide)⟩

/-! ## C7: the all-zero window -/

lemma toInt16_zero : toInt16 0 = 0 := by decide

lemma toInt32_zero : toInt32 0 = 0 := by decide

lemma asr_zero (s : Nat) : asr 0 s = 0 := Int.zero_ediv _

lemma getD_replicate_false {n i : Nat} :
    (List.replicate n false).getD i false = false := by
  rw [getD_replicate_split]; split <;> rfl

lemma weightedInput16_zero (W : List (List Int)) (nIn nCols : Nat) :
    weightedInput16 0 W nIn nCols = List.replicate nCols 0 := by
  unfold weightedInput16
  apply range_map_eq_replicate
  intro i _
  apply foldl_guard_id
  intro x _
  exact Nat.zero_testBit x

lemma leak16_replicate_zero (s : Nat) (n : Nat) {i : Nat} (hi : i < n) :
    (leak16 (List.replicate n (0 : Int)) s n).getD i 0 = 0 := by
  unfold leak16
  rw [getD_range_map _ _ hi, getD_replicate_zero]
  unfold asr16
  rw [asr_zero, toInt16_zero]
  simp [toInt16_zero]

lemma intHidden_zero (p : IntSNNParams) (W1 : List (List Int)) (m : Nat)
    (hm : m &&& 4095 = 0) :
    intHidden p W1 (List.replicate p.n_hidden 0) m
      = List.replicate p.n_hidden 0 := by
  unfold intHidden
  rw [hm, weightedInput16_zero]
  unfold integrate16
  apply range_map_eq_replicate
  intro i hi
  rw [leak16_replicate_zero _ _ hi, getD_replicate_zero]
  simpa using toInt16_zero

lemma fireSpikes16_zero (th : Int) (n : Nat) (hth : 0 < th) :
    fireSpikes16 (List.replicate n (0 : Int)) th n = List.replicate n false := by
  unfold fireSpikes16
  apply range_map_eq_replicate
  intro i _
  rw [getD_replicate_zero]
  simpa using not_le.mpr hth

lemma fireReset16_zero (th : Int) (n : Nat) :
    fireReset16 (List.replicate n (0 : Int)) th n = List.replicate n 0 := by
  unfold fireReset16
  apply range_map_eq_replicate
  intro i _
  rw [getD_replicate_zero]
  exact ite_self 0

lemma spikesInput16_zero (W : List (List Int)) (nRows nCols : Nat) :
    spikesInput16 (List.replicate nRows false) W nRows nCols
      = List.replicate nCols 0 := by
  unfold spikesInput16
  apply range_map_eq_replicate
  intro i _
  apply foldl_guard_id
  intro x _
  exact getD_replicate_false

lemma intOut_zero (p : IntSNNParams) (W2 : List (List Int)) (hth : 0 < p.th_h) :
    intOut p W2 (List.replicate p.n_out 0) (List.replicate p.n_hidden 0)
      = List.replicate p.n_out 0 := by
  unfold intOut
  rw [fireSpikes16_zero _ _ hth, spikesInput16_zero]
  unfold integrate16
  apply range_map_eq_replicate
  intro i hi
  rw [leak16_replicate_zero _ _ hi, getD_replicate_zero]
  simpa using toInt16_zero

lemma countsStep_zero (Vnew : List Int) (th : Int) (n : Nat)
    (hth : 0 < th) (hV : Vnew = List.replicate n 0) :
    countsStep (List.replicate n (0 : Int)) Vnew th n = List.replicate n 0 := by
  subst hV
  unfold countsStep
  apply range_map_eq_replicate
  intro i _
  rw [getD_replicate_zero, if_neg (not_le.mpr hth), add_zero]
  exact toInt32_zero

lemma intStep_zero (p : IntSNNParams) (W1 W2 : List (List Int)) (m : Nat)
    (hm : m &&& 4095 = 0) (h1 : 0 < p.th_h) (h2 : 0 < p.th_o) :
    intStep p W1 W2
      (List.replicate p.n_hidden 0, List.replicate p.n_out 0,
       List.replicate p.n_out 0) m
      = (List.replicate p.n_hidden 0, List.replicate p.n_out 0,
         List.replicate p.n_out 0) := by
  show (fireReset16 (intHidden p W1 (List.replicate p.n_hidden 0) m) p.th_h p.n_hidden,
        fireReset16 (intOut p W2 (List.replicate p.n_out 0)
          (intHidden p W1 (List.replicate p.n_hidden 0) m)) p.th_o p.n_out,
        countsStep (List.replicate p.n_out 0)
          (intOut p W2 (List.replicate p.n_out 0)
            (intHidden p W1 (List.replicate p.n_hidden 0) m)) p.th_o p.n_out)
      = (List.replicate p.n_hidden 0, List.replicate p.n_out 0,
         List.replicate p.n_out 0)
  rw [intHidden_zero p W1 m hm, intOut_zero p W2 h1, fireReset16_zero,
    fireReset16_zero, countsStep_zero _ _ _ h2 rfl]

lemma intRun_zero (p : IntSNNParams) (W1 W2 : List (List Int))
    (h1 : 0 < p.th_h) (h2 : 0 < p.th_o) :
    ∀ masks : List Nat, (∀ m ∈ masks, m &&& 4095 = 0) →
      masks.foldl (intStep p W1 W2)
        (List.replicate p.n_hidden 0, List.replicate p.n_out 0,
         List.replicate p.n_out 0)
      = (List.replicate p.n_hidden 0, List.replicate p.n_out 0,
         List.replicate p.n_out 0) := by
  intro masks
  induction masks with
  | nil => intro _; rfl
  | cons m ms ih =>
    intro hz
    rw [List.foldl_cons, intStep_zero p W1 W2 m (hz m (by simp)) h1 h2]
    exact ih (fun x hx => hz x (by simp [hx]))

/-- C7: a window whose 12-bit input mask is zero at every timestep produces
counts `[0, 0, 0]` and predicted class `0` (the lowest-index tie-break), for
any positive thresholds. -/
theorem c7_all_zero_window (spike_masks : List Nat) (W1 W2 : List (List Int))
    (p : IntSNNParams) (hz : ∀ m ∈ spike_masks, m &&& 4095 = 0)
    (h1 : 0 < p.th_h) (h2 : 0 < p.th_o) (h3 : p.n_out = 3) :
    snn_infer_int spike_masks W1 W2 p = (0, [0, 0, 0]) := by
  simp only [snn_infer_int]
  have hz' : ∀ m ∈ spike_masks.take (min spike_masks.length p.window_len),
      m &&& 4095 = 0 := fun m hm => hz m (List.take_subset _ _ hm)
  rw [intRun_zero p W1 W2 h1 h2 _ hz', h3, argmaxFirst_replicate_zero]
  rfl

/-- C7 witness: a concrete all-zero window (one word uses only bits above the
12 significant ones) at the reference thresholds. -/
theorem c7_all_zero_window_witness :
    ((∀ m ∈ [0, 4096], m &&& 4095 = 0) ∧ (0 : Int) < 64 ∧ (0 : Int) < 64) ∧
    snn_infer_int [0, 4096] [[1]] [[2]] ⟨12, 32, 3, 10, 4, 4, 64, 64⟩
      = (0, [0, 0, 0]) :=
  ⟨⟨by decide, by decide, by decide⟩,
   c7_all_zero_window [0, 4096] [[1]] [[2]] ⟨12, 32, 3, 10, 4, 4, 64, 64⟩
     (by decide) (by decide) (by decide) rfl⟩

/-! ## C8: determinism -/

/-- C8: both fixed-point LIF engine embeddings are pure functions of their
inputs: two invocations on equal windows, equal weights and equal parameters
return bit-identical classes and counts.  (The Python sources hold no module
or call-persistent state and draw no randomness; the membrane state is
re-created at zero on every call.) -/
theorem c8_engines_deterministic (m1 m2 : List Nat)
    (a1 a2 b1 b2 : List (List Int)) (p1 p2 : IntSNNParams)
    (e1 e2 : List (List Nat)) (w1 w2 : SNNWeights) (q1 q2 : SNNParams)
    (hm : m1 = m2) (ha : a1 = a2) (hb : b1 = b2) (hp : p1 = p2)
    (he : e1 = e2) (hw : w1 = w2) (hq : q1 = q2) :
    snn_infer_int m1 a1 b1 p1 = snn_infer_int m2 a2 b2 p2 ∧
    snn_infer_events e1 w1 q1 = snn_infer_events e2 w2 q2 := by
  subst hm
  subst ha
  subst hb
  subst hp
  subst he
  subst hw
  subst hq
  exact ⟨rfl, rfl⟩

/-- C8 witness: determinism at a concrete input. -/
theorem c8_engines_deterministic_witness :
    snn_infer_int [5] [[7]] [[9]] ⟨12, 1, 1, 1, 4, 4, 64, 64⟩
        = snn_infer_int [5] [[7]] [[9]] ⟨12, 1, 1, 1, 4, 4, 64, 64⟩ ∧
    snn_infer_events [[0]] ⟨[[7]], [[9]]⟩ ⟨1, 1, 4, 4, 64, 64, 1⟩
        = snn_infer_events [[0]] ⟨[[7]], [[9]]⟩ ⟨1, 1, 4, 4, 64, 64, 1⟩ :=
  c8_engines_deterministic [5] [5] [[7]] [[7]] [[9]] [[9]]
    ⟨12, 1, 1, 1, 4, 4, 64, 64⟩ ⟨12, 1, 1, 1, 4, 4, 64, 64⟩
    [[0]] [[0]] ⟨[[7]], [[9]]⟩ ⟨[[7]], [[9]]⟩
    ⟨1, 1, 4, 4, 64, 64, 1⟩ ⟨1, 1, 4, 4, 64, 64, 1⟩
    rfl rfl rfl rfl rfl rfl rfl

/-! ## C10: the range of the integer confidence -/

/-- As long as the number of executed timesteps keeps every int32 class
counter below `2^31`, the wrapped accumulation is exact: starting from
counters in `[0, base]`, after the remaining timesteps every counter lies in
`[0, base + #timesteps]`. -/
lemma eventsRun_counts_bounded (p : SNNParams) (w : SNNWeights) :
    ∀ (events : List (List Nat)) (st : List Int × List Int × List Int)
      (base : Int),
      0 ≤ base →
      base + events.length ≤ 2147483647 →
      (∀ o, 0 ≤ st.2.2.getD o 0 ∧ st.2.2.getD o 0 ≤ base) →
      ∀ o, 0 ≤ ((events.foldl (eventsStep p w) st).2.2).getD o 0 ∧
        ((events.foldl (eventsStep p w) st).2.2).getD o 0
          ≤ base + events.length := by
  intro events
  induction events with
  | nil =>
    intro st base hb0 hlen h o
    simpa using h o
  | cons e es ih =>
    intro st base hb0 hlen h o
    rw [List.foldl_cons]
    have hl : (e :: es).length = es.length + 1 := rfl
    rw [hl] at hlen
    have hlen' : base + 1 + (es.length : Int) ≤ 2147483647 := by push_cast at hlen ⊢; omega
    have hstep : ∀ o2, 0 ≤ ((eventsStep p w st e).2.2).getD o2 0 ∧
        ((eventsStep p w st e).2.2).getD o2 0 ≤ base + 1 := by
      intro o2
      have hcc : (eventsStep p w st e).2.2 = countsStep st.2.2
          (eventsOut p w.W2 st.2.1 (eventsHidden p w.W1 st.1 e)) p.th_o p.No := rfl
      rw [hcc]
      unfold countsStep
      by_cases ho : o2 < p.No
      · rw [getD_range_map _ _ ho]
        obtain ⟨hc0, hc1⟩ := h o2
        have hlnn : (0 : Int) ≤ (es.length : Int) := by positivity
        by_cases hcond : p.th_o ≤ (eventsOut p w.W2 st.2.1
            (eventsHidden p w.W1 st.1 e)).getD o2 0
        · rw [if_pos hcond, toInt32_eq_self (by omega) (by omega)]
          omega
        · rw [if_neg hcond, toInt32_eq_self (by omega) (by omega)]
          omega
      · rw [getD_range_map_ge _ _ (le_of_not_lt ho)]
        omega
    have hrec := ih (eventsStep p w st e) (base + 1) (by omega) hlen' hstep o
    constructor
    · exact hrec.1
    · have h2 := hrec.2
      rw [hl]
      push_cast at h2 ⊢
      omega

lemma getD_eq_getElem_of_lt (l : List Int) {j : Nat} (hj : j < l.length) :
    l.getD j 0 = l[j] := by
  rw [List.getD_eq_getElem?_getD, List.getElem?_eq_getElem hj]
  rfl

lemma getD_le_sum (l : List Int) (h : ∀ o, 0 ≤ l.getD o 0) (j : Nat) :
    l.getD j 0 ≤ l.foldl (· + ·) 0 := by
  have hnn : ∀ x ∈ l, (0 : Int) ≤ x := by
    intro x hx
    obtain ⟨k, hk, rfl⟩ := List.getElem_of_mem hx
    have hk' := h k
    rwa [getD_eq_getElem_of_lt l hk] at hk'
  have hsum : l.foldl (· + ·) 0 = l.sum := List.sum_eq_foldl.symm
  rw [hsum]
  by_cases hj : j < l.length
  · rw [getD_eq_getElem_of_lt l hj]
    exact List.single_le_sum hnn _ (List.getElem_mem hj)
  · rw [List.getD_eq_getElem?_getD, List.getElem?_eq_none (le_of_not_lt hj)]
    exact List.sum_nonneg hnn

lemma conf_q0_8_bounds (Cout : List Int) (h : ∀ o, 0 ≤ Cout.getD o 0) :
    0 ≤ Int.fdiv (Cout.getD (argmaxFirst Cout) 0 * 256)
        (max (Cout.foldl (· + ·) 0) 1) ∧
    Int.fdiv (Cout.getD (argmaxFirst Cout) 0 * 256)
        (max (Cout.foldl (· + ·) 0) 1) ≤ 256 := by
  have hcle : Cout.getD (argmaxFirst Cout) 0 ≤ Cout.foldl (· + ·) 0 :=
    getD_le_sum Cout h _
  have hc0 : 0 ≤ Cout.getD (argmaxFirst Cout) 0 := h _
  have hd1 : (1 : Int) ≤ max (Cout.foldl (· + ·) 0) 1 := le_max_right _ _
  have hd : (0 : Int) < max (Cout.foldl (· + ·) 0) 1 := by omega
  rw [Int.fdiv_eq_ediv _ (le_of_lt hd)]
  constructor
  · exact Int.ediv_nonneg (by positivity) (le_of_lt hd)
  · have hnum : Cout.getD (argmaxFirst Cout) 0 * 256
        ≤ max (Cout.foldl (· + ·) 0) 1 * 256 := by
      have hcm : Cout.getD (argmaxFirst Cout) 0 ≤ max (Cout.foldl (· + ·) 0) 1 :=
        le_trans hcle (le_max_left _ _)
      nlinarith
    calc Cout.getD (argmaxFirst Cout) 0 * 256 / max (Cout.foldl (· + ·) 0) 1
        ≤ max (Cout.foldl (· + ·) 0) 1 * 256 / max (Cout.foldl (· + ·) 0) 1 :=
          Int.ediv_le_ediv hd hnum
      _ = 256 := Int.mul_ediv_cancel_left _ (by omega)

/-- A parameter set under which every timestep fires the single output class
regardless of input: one hidden and one output neuron, thresholds `0`, a
`2^31`-timestep window.  Used only to exhibit the int32 counter wraparound. -/
def pCE : SNNParams := ⟨1, 1, 4, 4, 0, 0, 2 ^ 31⟩

/-- All-zero weights for the wraparound run. -/
def wCE : SNNWeights := ⟨[[0]], [[0]]⟩

lemma c10ce_step (y : Int) :
    eventsStep pCE wCE ([0], [0], [y]) [] = ([0], [0], [toInt32 (y + 1)]) := rfl

lemma c10ce_run : ∀ (k : Nat) (c : Int),
    (List.replicate k ([] : List Nat)).foldl (eventsStep pCE wCE)
      ([0], [0], [toInt32 c])
      = ([0], [0], [toInt32 (c + (k : Int))]) := by
  intro k
  induction k with
  | zero =>
    intro c
    simp
  | succ n ih =>
    intro c
    rw [List.replicate_succ, List.foldl_cons, c10ce_step, toInt32_add_left,
      ih (c + 1)]
    have harith : c + 1 + (n : Int) = c + ((n + 1 : Nat) : Int) := by
      push_cast
      ring
    rw [harith]

/-- C10 counterexample: the universal `0 <= conf_q0_8` bound fails on the
code, because both sources accumulate the class counters in `np.int32`.  A
`2^31`-timestep window of empty event lists with thresholds `0` fires the
single output class every timestep; the counter wraps to `-2^31` and the
returned confidence is negative. -/
theorem c10_conf_wrap_counterexample :
    (snn_infer_events (List.replicate (2 ^ 31) []) wCE pCE).2.1 < 0 := by
  simp only [snn_infer_events]
  have hw : pCE.window_len = 2 ^ 31 := rfl
  have hmin : min (List.replicate (2 ^ 31) ([] : List Nat)).length pCE.window_len
      = 2 ^ 31 := by
    rw [List.length_replicate, hw, min_self]
  rw [hmin]
  have htake : (List.replicate (2 ^ 31) ([] : List Nat)).take (2 ^ 31)
      = List.replicate (2 ^ 31) [] := by
    rw [List.take_replicate, min_self]
  rw [htake]
  have hinit : (List.replicate pCE.Nh (0 : Int), List.replicate pCE.No (0 : Int),
      List.replicate pCE.No (0 : Int))
      = (([0], [0], [toInt32 0]) : List Int × List Int × List Int) := by
    rw [toInt32_zero]
    rfl
  rw [hinit, c10ce_run (2 ^ 31) 0]
  decide

/-- C10 (amended): for every window that executes at most `2^31 - 1`
timesteps — so the int32 spike counters cannot wrap — the integer confidence
`conf_q0_8 = (counts[cls] << 8) // max(sum, 1)` returned by
`snn_infer_events` lies in `[0, 256]`; it attains `256` when every output
spike belongs to the predicted class, so it needs 9 unsigned bits despite the
Q0.8 name.  (Past `2^31` timesteps the counters wrap and the bound fails, see
the counterexample.) -/
theorem c10_conf_q0_8_range (events : List (List Nat)) (w : SNNWeights)
    (p : SNNParams) (hT : min events.length p.window_len ≤ 2 ^ 31 - 1) :
    (0 ≤ (snn_infer_events events w p).2.1 ∧
      (snn_infer_events events w p).2.1 ≤ 256) ∧
    (snn_infer_events [[0]] ⟨[[127]], [[127, -10, -10]]⟩
      ⟨1, 3, 4, 4, 64, 64, 1⟩).2.1 = 256 := by
  constructor
  · have hlen2 : (events.take (min events.length p.window_len)).length
        ≤ 2147483647 := by
      rw [List.length_take]
      have h2 : (2 : Nat) ^ 31 - 1 = 2147483647 := by norm_num
      rw [h2] at hT
      omega
    have hb := eventsRun_counts_bounded p w
      (events.take (min events.length p.window_len))
      (List.replicate p.Nh 0, List.replicate p.No 0, List.replicate p.No 0)
      0 (le_refl 0) (by omega)
      (fun o => by rw [getD_replicate_zero]; omega)
    exact conf_q0_8_bounds _ (fun o => (hb o).1)
  · decide

/-- C10 witness: the amended bound applied at the 256-attaining input. -/
theorem c10_conf_q0_8_range_witness :
    (min ([[(0 : Nat)]] : List (List Nat)).length
        ((⟨1, 3, 4, 4, 64, 64, 1⟩ : SNNParams)).window_len ≤ 2 ^ 31 - 1) ∧
    ((0 ≤ (snn_infer_events [[0]] ⟨[[127]], [[127, -10, -10]]⟩
        ⟨1, 3, 4, 4, 64, 64, 1⟩).2.1 ∧
      (snn_infer_events [[0]] ⟨[[127]], [[127, -10, -10]]⟩
        ⟨1, 3, 4, 4, 64, 64, 1⟩).2.1 ≤ 256) ∧
     (snn_infer_events [[0]] ⟨[[127]], [[127, -10, -10]]⟩
       ⟨1, 3, 4, 4, 64, 64, 1⟩).2.1 = 256) :=
  ⟨by decide,
   c10_conf_q0_8_range [[0]] ⟨[[127]], [[127, -10, -10]]⟩
     ⟨1, 3, 4, 4, 64, 64, 1⟩ (by decide)⟩

/-! ## Quantizer: `quantize_int8` (src/models/export_weights.py)

Float arithmetic is idealized as exact rationals: `np.round` is numpy's
round-half-to-even, `np.clip` is the two-sided clamp, and the final
`astype(np.int8)` narrowing is the two's-complement wrap `wrapW 8` (an
identity after the clamp).  The matrix is a list of rows of rationals. -/

/-- Numpy `np.round`: round half to even. -/
def roundHalfEven (x : ℚ) : Int :=
  let f : Int := ⌊x⌋
  if x - f < 1 / 2 then f
  else if 1 / 2 < x - f then f + 1
  else if f % 2 = 0 then f else f + 1

/-- `np.clip(v, -127, 127)`. -/
def clip127 (v : Int) : Int := max (-127) (min 127 v)

/-- `np.max(np.abs(w))` over the matrix entries (`0` for an empty matrix,
where the numpy call would fail). -/
def maxAbs (w : List (List ℚ)) : ℚ :=
  w.foldl (fun acc row => row.foldl (fun a x => max a |x|) acc) 0

/-- `quantize_int8`: symmetric int8 quantization,
`scale = mx / 127 if mx > 1e-12 else 1.0`, then
`q = int8(clip(round(w / scale), -127, 127))`.  Returns `(q, scale)`. -/
def quantize_int8 (w : List (List ℚ)) : List (List Int) × ℚ :=
  let mx := maxAbs w
  let scale : ℚ := if 1 / 10 ^ 12 < mx then mx / 127 else 1
  (w.map (fun row => row.map (fun x => wrapW 8 (clip127 (roundHalfEven (x / scale))))),
   scale)

lemma roundHalfEven_zero : roundHalfEven 0 = 0 := by
  unfold roundHalfEven
  norm_num

lemma clip127_bounds (v : Int) : -127 ≤ clip127 v ∧ clip127 v ≤ 127 := by
  unfold clip127
  exact ⟨le_max_left _ _, max_le (by norm_num) (min_le_left _ _)⟩

lemma clip127_zero : clip127 0 = 0 := by decide

lemma getD_map_nested (w : List (List ℚ)) (f : ℚ → Int) (h0 : f 0 = 0)
    (i j : Nat) :
    wEntry (w.map (fun row => row.map f)) i j = f ((w.getD i []).getD j 0) := by
  unfold wEntry
  by_cases hi : i < w.length
  · have h1 : (w.map (fun row => row.map f)).getD i [] = (w[i]).map f := by
      rw [List.getD_eq_getElem?_getD, List.getElem?_map,
        List.getElem?_eq_getElem hi]
      rfl
    have h2 : w.getD i [] = w[i] := by
      rw [List.getD_eq_getElem?_getD, List.getElem?_eq_getElem hi]; rfl
    rw [h1, h2]
    by_cases hj : j < (w[i]).length
    · have h3 : ((w[i]).map f).getD j 0 = f ((w[i])[j]) := by
        rw [List.getD_eq_getElem?_getD, List.getElem?_map,
          List.getElem?_eq_getElem hj]
        rfl
      have h4 : (w[i]).getD j 0 = (w[i])[j] := by
        rw [List.getD_eq_getElem?_getD, List.getElem?_eq_getElem hj]; rfl
      rw [h3, h4]
    · have h3 : ((w[i]).map f).getD j 0 = 0 := by
        rw [List.getD_eq_getElem?_getD, List.getElem?_eq_none
          (by simpa using le_of_not_lt hj)]
        rfl
      have h4 : (w[i]).getD j 0 = 0 := by
        rw [List.getD_eq_getElem?_getD,
          List.getElem?_eq_none (le_of_not_lt hj)]
        rfl
      rw [h3, h4, h0]
  · have h1 : (w.map (fun row => row.map f)).getD i [] = [] := by
      rw [List.getD_eq_getElem?_getD, List.getElem?_eq_none
        (by simpa using le_of_not_lt hi)]
      rfl
    have h2 : w.getD i [] = [] := by
      rw [List.getD_eq_getElem?_getD, List.getElem?_eq_none (le_of_not_lt hi)]
      rfl
    rw [h1, h2]
    simpa using h0.symm

/-- C9 counterexample: the claim's "scale = max(|w|)/127, or 1.0 exactly when
the matrix is all-zero" fails on the code.  The matrix `[[10^-13]]` has a
nonzero entry, yet its max-abs does not exceed the `1e-12` cutoff of the
source, so the quantizer returns `scale = 1`, which differs from
`max(|w|)/127`. -/
theorem c9_quantizer_counterexample :
    ([[(1 : ℚ) / 10 ^ 13]].getD 0 []).getD 0 0 ≠ 0 ∧
    (quantize_int8 [[(1 : ℚ) / 10 ^ 13]]).2 = 1 ∧
    (quantize_int8 [[(1 : ℚ) / 10 ^ 13]]).2
      ≠ maxAbs [[(1 : ℚ) / 10 ^ 13]] / 127 := by
  have hmx : maxAbs [[(1 : ℚ) / 10 ^ 13]] = 1 / 10 ^ 13 := by
    unfold maxAbs
    simp only [List.foldl_cons, List.foldl_nil]
    rw [abs_of_nonneg (by norm_num)]
    norm_num
  have hscale : (quantize_int8 [[(1 : ℚ) / 10 ^ 13]]).2 = 1 := by
    have h2 : (quantize_int8 [[(1 : ℚ) / 10 ^ 13]]).2
        = (if 1 / 10 ^ 12 < maxAbs [[(1 : ℚ) / 10 ^ 13]]
           then maxAbs [[(1 : ℚ) / 10 ^ 13]] / 127 else 1) := rfl
    rw [h2, hmx, if_neg (by norm_num)]
  refine ⟨by norm_num, hscale, ?_⟩
  rw [hscale, hmx]
  norm_num

/-- C9 (amended): the Quantizer returns `(q, scale)` with
`scale = max(|w|)/127` when `max(|w|)` exceeds the source's `1e-12` cutoff and
`scale = 1` otherwise (in particular on every all-zero matrix); the scale is
positive; every entry of `q` lies in `[-127, 127]`, so the int8 narrowing is
lossless; and every zero entry of `w` quantizes to zero (symmetric, no
offset). -/
theorem c9_quantizer (w : List (List ℚ)) (i j : Nat) :
    (quantize_int8 w).2
        = (if 1 / 10 ^ 12 < maxAbs w then maxAbs w / 127 else 1) ∧
    0 < (quantize_int8 w).2 ∧
    (-127 ≤ wEntry (quantize_int8 w).1 i j ∧
      wEntry (quantize_int8 w).1 i j ≤ 127) ∧
    ((w.getD i []).getD j 0 = 0 → wEntry (quantize_int8 w).1 i j = 0) := by
  have hsnd : (quantize_int8 w).2
      = (if 1 / 10 ^ 12 < maxAbs w then maxAbs w / 127 else 1) := rfl
  have hfst : (quantize_int8 w).1
      = w.map (fun row => row.map (fun x =>
          wrapW 8 (clip127 (roundHalfEven (x / (quantize_int8 w).2))))) := rfl
  have hmx0 : (0 : ℚ) ≤ maxAbs w := by
    unfold maxAbs
    have hgen : ∀ (l : List (List ℚ)) (a : ℚ), 0 ≤ a →
        0 ≤ l.foldl (fun acc row => row.foldl (fun b x => max b |x|) acc) a := by
      intro l
      induction l with
      | nil => intro a ha; exact ha
      | cons r rs ih =>
        intro a ha
        rw [List.foldl_cons]
        apply ih
        have hrow : ∀ (row : List ℚ) (b : ℚ), 0 ≤ b →
            0 ≤ row.foldl (fun c x => max c |x|) b := by
          intro row
          induction row with
          | nil => intro b hb; exact hb
          | cons y ys ihy =>
            intro b hb
            rw [List.foldl_cons]
            exact ihy _ (le_trans hb (le_max_left _ _))
        exact hrow r a ha
    exact hgen w 0 (le_refl 0)
  have hpos : 0 < (quantize_int8 w).2 := by
    rw [hsnd]
    split
    · next h => have : (0 : ℚ) < maxAbs w := lt_trans (by norm_num) h; positivity
    · norm_num
  have hid : ∀ v : Int, -127 ≤ v → v ≤ 127 → wrapW 8 v = v := by
    intro v h1 h2
    have e : (2 : Int) ^ (8 - 1) = 128 := by norm_num
    exact wrapW_eq_self (by norm_num) (by omega) (by omega)
  have hf0 : (fun x => wrapW 8 (clip127 (roundHalfEven (x / (quantize_int8 w).2)))) 0
      = 0 := by
    show wrapW 8 (clip127 (roundHalfEven ((0 : ℚ) / (quantize_int8 w).2))) = 0
    rw [zero_div, roundHalfEven_zero, clip127_zero]
    decide
  have hq : wEntry (quantize_int8 w).1 i j
      = wrapW 8 (clip127 (roundHalfEven (((w.getD i []).getD j 0)
          / (quantize_int8 w).2))) := by
    rw [hfst]
    exact getD_map_nested w _ hf0 i j
  refine ⟨hsnd, hpos, ?_, ?_⟩
  · rw [hq]
    have hb := clip127_bounds (roundHalfEven (((w.getD i []).getD j 0)
      / (quantize_int8 w).2))
    rw [hid _ hb.1 hb.2]
    exact hb
  · intro h0
    rw [hq, h0, zero_div, roundHalfEven_zero, clip127_zero]
    decide

/-- C9 witness: the amended contract evaluated at a concrete matrix with a
zero entry. -/
theorem c9_quantizer_witness :
    ((quantize_int8 [[0, 254]]).2
        = (if 1 / 10 ^ 12 < maxAbs [[0, 254]] then maxAbs [[0, 254]] / 127 else 1) ∧
     0 < (quantize_int8 [[0, 254]]).2 ∧
     (-127 ≤ wEntry (quantize_int8 [[0, 254]]).1 0 0 ∧
       wEntry (quantize_int8 [[0, 254]]).1 0 0 ≤ 127) ∧
     (([[(0 : ℚ), 254]].getD 0 []).getD 0 0 = 0 →
       wEntry (quantize_int8 [[0, 254]]).1 0 0 = 0)) ∧
    ([[(0 : ℚ), 254]].getD 0 []).getD 0 0 = 0 ∧
    wEntry (quantize_int8 [[0, 254]]).1 0 0 = 0 :=
  ⟨c9_quantizer [[0, 254]] 0 0,
   by norm_num,
   (c9_quantizer [[0, 254]] 0 0).2.2.2 (by norm_num)⟩

/-! ## Register-file / stream emulator: `FPGAEmulator`
(src/fpga/fpga_emulator.py; offsets and bits from src/fpga/regs.py)

The float-backed golden inference invoked on START (`infer_counts` over
float32 plus the float confidence `round(conf * 2^15)`) cannot be embedded
exactly; it is abstracted as an uninterpreted total function `engine` from
the two loaded weight values, the consumed frame and the window length to the
integer values written to the result registers (class, three counts, and the
raw value clipped into `CONF_Q15`).  Every theorem below holds for every such
function, and weight matrices (dequantized floats) are abstracted as an
arbitrary type `α`.  The register dictionary is a total map from byte offsets
to values, reading `0` for never-written offsets (`dict.get(offset, 0)`). -/

namespace regs

def CONTROL : Nat := 0x00
def STATUS : Nat := 0x04
def WINDOW_LEN : Nat := 0x08
def N_IN : Nat := 0x0C
def N_HIDDEN : Nat := 0x10
def N_OUT : Nat := 0x14
def RESULT_CLASS : Nat := 0x18
def COUNT0 : Nat := 0x1C
def COUNT1 : Nat := 0x20
def COUNT2 : Nat := 0x24
def CONF_Q15 : Nat := 0x28
def LATENCY_CYCLES : Nat := 0x2C

def CTRL_START : Nat := 1
def CTRL_RESET : Nat := 2
def CTRL_INTEN : Nat := 4

def STS_DONE : Nat := 1
def STS_BUSY : Nat := 2
def STS_ERR : Nat := 4

end regs

structure EmulatorConfig where
  n_in : Nat := 12
  n_hidden : Nat := 32
  n_out : Nat := 3
  window_len : Nat := 10
  leak_h_shift : Nat := 4
  leak_o_shift : Nat := 4

/-- Result of the abstracted float-backed inference: the integer values the
emulator writes into `RESULT_CLASS`, `COUNT0..2`, and (before clipping into
`[0, 32767]`) the rounded Q1.15 confidence. -/
structure EngineOut where
  pred : Int
  c0 : Int
  c1 : Int
  c2 : Int
  confRaw : Int

structure FPGAEmulator (α : Type) where
  cfg : EmulatorConfig
  regs : Nat → Int
  stream_buf : List Nat
  W1 : Option α
  W2 : Option α

/-- Pointwise register store (`self._regs[offset] = value`). -/
def setReg (f : Nat → Int) (off : Nat) (v : Int) : Nat → Int :=
  fun o => if o = off then v else f o

/-- The constructor's register file: every mapped register starts at `0`,
then `WINDOW_LEN`, `N_IN`, `N_HIDDEN`, `N_OUT` take their configuration
values; unmapped offsets read `0`. -/
def initRegs (cfg : EmulatorConfig) : Nat → Int :=
  fun o =>
    if o = regs.WINDOW_LEN then cfg.window_len
    else if o = regs.N_IN then cfg.n_in
    else if o = regs.N_HIDDEN then cfg.n_hidden
    else if o = regs.N_OUT then cfg.n_out
    else 0

/-- `FPGAEmulator.__init__` without an exports directory: no weights
loaded, empty FIFO. -/
def FPGAEmulator.mk0 (α : Type) (cfg : EmulatorConfig) : FPGAEmulator α :=
  { cfg := cfg, regs := initRegs cfg, stream_buf := [], W1 := none, W2 := none }

/-- `FPGAEmulator.reset`: clears the stream FIFO and the status/result
registers (STATUS, RESULT_CLASS, COUNT0..2, CONF_Q15, LATENCY_CYCLES). -/
def FPGAEmulator.reset {α : Type} (e : FPGAEmulator α) : FPGAEmulator α :=
  { e with
    stream_buf := [],
    regs := setReg (setReg (setReg (setReg (setReg (setReg (setReg e.regs
      regs.STATUS 0) regs.RESULT_CLASS 0) regs.COUNT0 0) regs.COUNT1 0)
      regs.COUNT2 0) regs.CONF_Q15 0) regs.LATENCY_CYCLES 0 }

/-- `FPGAEmulator._start_inference`: error out (STATUS=ERR, nothing else
touched) without weights or with fewer than WINDOW_LEN queued words;
otherwise consume one frame from the FIFO, run the (abstracted) engine,
write the result registers, the clipped Q1.15 confidence and the synthetic
latency, and finish with STATUS=DONE (BUSY is stored transiently first). -/
def FPGAEmulator.start_inference {α : Type}
    (engine : α → α → List Nat → Nat → EngineOut)
    (e : FPGAEmulator α) : FPGAEmulator α :=
  match e.W1, e.W2 with
  | some w1, some w2 =>
    let texp := (e.regs regs.WINDOW_LEN).toNat
    if e.stream_buf.length < texp then
      { e with regs := setReg e.regs regs.STATUS (regs.STS_ERR : Int) }
    else
      let frame := e.stream_buf.take texp
      let rest := e.stream_buf.drop texp
      let r := engine w1 w2 frame texp
      let regs1 := setReg e.regs regs.STATUS (regs.STS_BUSY : Int)
      let regs2 := setReg regs1 regs.RESULT_CLASS r.pred
      let regs3 := setReg regs2 regs.COUNT0 r.c0
      let regs4 := setReg regs3 regs.COUNT1 r.c1
      let regs5 := setReg regs4 regs.COUNT2 r.c2
      let regs6 := setReg regs5 regs.CONF_Q15 (max 0 (min r.confRaw 32767))
      let regs7 := setReg regs6 regs.LATENCY_CYCLES
        (texp * (e.cfg.n_hidden + e.cfg.n_out))
      let regs8 := setReg regs7 regs.STATUS (regs.STS_DONE : Int)
      { e with stream_buf := rest, regs := regs8 }
  | _, _ => { e with regs := setReg e.regs regs.STATUS (regs.STS_ERR : Int) }

/-- `FPGAEmulator.write_reg`: the value is masked to 32 bits; a CONTROL write
handles RESET first, then START, then stores the word; every other offset is
stored verbatim (the source's WINDOW_LEN branch stores identically). -/
def FPGAEmulator.write_reg {α : Type}
    (engine : α → α → List Nat → Nat → EngineOut)
    (e : FPGAEmulator α) (offset : Nat) (value : Int) : FPGAEmulator α :=
  let v : Nat := (value.emod 4294967296).toNat
  if offset = regs.CONTROL then
    let e1 := if v &&& regs.CTRL_RESET ≠ 0 then e.reset else e
    let e2 := if v &&& regs.CTRL_START ≠ 0 then e1.start_inference engine else e1
    { e2 with regs := setReg e2.regs offset (v : Int) }
  else
    { e with regs := setReg e.regs offset (v : Int) }

/-- `FPGAEmulator.read_reg`: reads never mutate state. -/
def FPGAEmulator.read_reg {α : Type} (e : FPGAEmulator α) (offset : Nat) : Int :=
  e.regs offset

/-- `FPGAEmulator.stream_send_masks`: appends the words (as uint32) to the
FIFO; no register changes. -/
def FPGAEmulator.stream_send_masks {α : Type} (e : FPGAEmulator α)
    (masks : List Nat) : FPGAEmulator α :=
  { e with stream_buf := e.stream_buf ++ masks.map (fun m => m % 4294967296) }

lemma start_inference_err {α : Type}
    (engine : α → α → List Nat → Nat → EngineOut) (e : FPGAEmulator α)
    (herr : e.W1 = none ∨ e.W2 = none ∨
      e.stream_buf.length < (e.regs regs.WINDOW_LEN).toNat) :
    e.start_inference engine
      = { e with regs := setReg e.regs regs.STATUS (regs.STS_ERR : Int) } := by
  unfold FPGAEmulator.start_inference
  cases hW1 : e.W1 with
  | none => rfl
  | some w1 =>
    cases hW2 : e.W2 with
    | none => rfl
    | some w2 =>
      rcases herr with h | h | h
      · rw [hW1] at h; exact Option.noConfusion h
      · rw [hW2] at h; exact Option.noConfusion h
      · dsimp only
        rw [if_pos h]

lemma start_inference_done {α : Type}
    (engine : α → α → List Nat → Nat → EngineOut) (e : FPGAEmulator α)
    (w1 w2 : α) (hW1 : e.W1 = some w1) (hW2 : e.W2 = some w2)
    (hlen : (e.regs regs.WINDOW_LEN).toNat ≤ e.stream_buf.length) :
    e.start_inference engine
      = { e with
          stream_buf := e.stream_buf.drop (e.regs regs.WINDOW_LEN).toNat,
          regs := setReg (setReg (setReg (setReg (setReg (setReg (setReg
            (setReg e.regs regs.STATUS (regs.STS_BUSY : Int))
            regs.RESULT_CLASS
              (engine w1 w2 (e.stream_buf.take (e.regs regs.WINDOW_LEN).toNat)
                (e.regs regs.WINDOW_LEN).toNat).pred)
            regs.COUNT0
              (engine w1 w2 (e.stream_buf.take (e.regs regs.WINDOW_LEN).toNat)
                (e.regs regs.WINDOW_LEN).toNat).c0)
            regs.COUNT1
              (engine w1 w2 (e.stream_buf.take (e.regs regs.WINDOW_LEN).toNat)
                (e.regs regs.WINDOW_LEN).toNat).c1)
            regs.COUNT2
              (engine w1 w2 (e.stream_buf.take (e.regs regs.WINDOW_LEN).toNat)
                (e.regs regs.WINDOW_LEN).toNat).c2)
            regs.CONF_Q15
              (max 0 (min (engine w1 w2
                (e.stream_buf.take (e.regs regs.WINDOW_LEN).toNat)
                (e.regs regs.WINDOW_LEN).toNat).confRaw 32767)))
            regs.LATENCY_CYCLES
              ((e.regs regs.WINDOW_LEN).toNat * (e.cfg.n_hidden + e.cfg.n_out)))
            regs.STATUS (regs.STS_DONE : Int) } := by
  unfold FPGAEmulator.start_inference
  rw [hW1, hW2]
  dsimp only
  rw [if_neg (not_lt.mpr hlen)]

/-- C3: a CONTROL write with START set and RESET clear, issued with no
weights loaded or with fewer queued stream words than the WINDOW_LEN
register, sets STATUS to ERR and leaves all result registers and the stream
FIFO untouched. -/
theorem c3_start_error_path {α : Type}
    (engine : α → α → List Nat → Nat → EngineOut) (e : FPGAEmulator α)
    (value : Int)
    (hstart : ((value.emod 4294967296).toNat) &&& regs.CTRL_START ≠ 0)
    (hreset : ((value.emod 4294967296).toNat) &&& regs.CTRL_RESET = 0)
    (herr : e.W1 = none ∨ e.W2 = none ∨
      e.stream_buf.length < (e.regs regs.WINDOW_LEN).toNat) :
    (e.write_reg engine regs.CONTROL value).read_reg regs.STATUS
        = (regs.STS_ERR : Int) ∧
    (e.write_reg engine regs.CONTROL value).read_reg regs.RESULT_CLASS
        = e.read_reg regs.RESULT_CLASS ∧
    (e.write_reg engine regs.CONTROL value).read_reg regs.COUNT0
        = e.read_reg regs.COUNT0 ∧
    (e.write_reg engine regs.CONTROL value).read_reg regs.COUNT1
        = e.read_reg regs.COUNT1 ∧
    (e.write_reg engine regs.CONTROL value).read_reg regs.COUNT2
        = e.read_reg regs.COUNT2 ∧
    (e.write_reg engine regs.CONTROL value).read_reg regs.CONF_Q15
        = e.read_reg regs.CONF_Q15 ∧
    (e.write_reg engine regs.CONTROL value).read_reg regs.LATENCY_CYCLES
        = e.read_reg regs.LATENCY_CYCLES ∧
    (e.write_reg engine regs.CONTROL value).stream_buf = e.stream_buf := by
  have hrs : (((value.emod 4294967296).toNat) &&& regs.CTRL_RESET ≠ 0) = False := by
    simp [hreset]
  have hst : (((value.emod 4294967296).toNat) &&& regs.CTRL_START ≠ 0) = True := by
    simp [hstart]
  simp only [FPGAEmulator.write_reg, hrs, hst, if_true, if_false]
  rw [start_inference_err engine e herr]
  simp [FPGAEmulator.read_reg, setReg, regs.CONTROL, regs.STATUS,
    regs.RESULT_CLASS, regs.COUNT0, regs.COUNT1, regs.COUNT2, regs.CONF_Q15,
    regs.LATENCY_CYCLES, regs.STS_ERR]

/-- C3 witness: a START write on a fresh emulator with no weights loaded. -/
theorem c3_start_error_path_witness :
    (((1 : Int).emod 4294967296).toNat &&& regs.CTRL_START ≠ 0 ∧
     ((1 : Int).emod 4294967296).toNat &&& regs.CTRL_RESET = 0 ∧
     (FPGAEmulator.mk0 Unit {}).W1 = none) ∧
    (((FPGAEmulator.mk0 Unit {}).write_reg (fun _ _ _ _ => ⟨0, 0, 0, 0, 0⟩)
        regs.CONTROL 1).read_reg regs.STATUS = (regs.STS_ERR : Int) ∧
     ((FPGAEmulator.mk0 Unit {}).write_reg (fun _ _ _ _ => ⟨0, 0, 0, 0, 0⟩)
        regs.CONTROL 1).read_reg regs.RESULT_CLASS
        = (FPGAEmulator.mk0 Unit {}).read_reg regs.RESULT_CLASS ∧
     ((FPGAEmulator.mk0 Unit {}).write_reg (fun _ _ _ _ => ⟨0, 0, 0, 0, 0⟩)
        regs.CONTROL 1).read_reg regs.COUNT0
        = (FPGAEmulator.mk0 Unit {}).read_reg regs.COUNT0 ∧
     ((FPGAEmulator.mk0 Unit {}).write_reg (fun _ _ _ _ => ⟨0, 0, 0, 0, 0⟩)
        regs.CONTROL 1).read_reg regs.COUNT1
        = (FPGAEmulator.mk0 Unit {}).read_reg regs.COUNT1 ∧
     ((FPGAEmulator.mk0 Unit {}).write_reg (fun _ _ _ _ => ⟨0, 0, 0, 0, 0⟩)
        regs.CONTROL 1).read_reg regs.COUNT2
        = (FPGAEmulator.mk0 Unit {}).read_reg regs.COUNT2 ∧
     ((FPGAEmulator.mk0 Unit {}).write_reg (fun _ _ _ _ => ⟨0, 0, 0, 0, 0⟩)
        regs.CONTROL 1).read_reg regs.CONF_Q15
        = (FPGAEmulator.mk0 Unit {}).read_reg regs.CONF_Q15 ∧
     ((FPGAEmulator.mk0 Unit {}).write_reg (fun _ _ _ _ => ⟨0, 0, 0, 0, 0⟩)
        regs.CONTROL 1).read_reg regs.LATENCY_CYCLES
        = (FPGAEmulator.mk0 Unit {}).read_reg regs.LATENCY_CYCLES ∧
     ((FPGAEmulator.mk0 Unit {}).write_reg (fun _ _ _ _ => ⟨0, 0, 0, 0, 0⟩)
        regs.CONTROL 1).stream_buf = (FPGAEmulator.mk0 Unit {}).stream_buf) :=
  ⟨⟨by decide, by decide, rfl⟩,
   c3_start_error_path (fun _ _ _ _ => ⟨0, 0, 0, 0, 0⟩) (FPGAEmulator.mk0 Unit {})
     1 (by decide) (by decide) (Or.inl rfl)⟩

/-- C4: a CONTROL write with START set and RESET clear, with weights loaded
and at least WINDOW_LEN queued words, consumes exactly the first WINDOW_LEN
words as the frame handed to the engine, leaves the remaining words queued in
order, writes the engine results into the result registers, and ends with
STATUS = DONE. -/
theorem c4_start_consumes_frame {α : Type}
    (engine : α → α → List Nat → Nat → EngineOut) (e : FPGAEmulator α)
    (value : Int) (w1 w2 : α)
    (hW1 : e.W1 = some w1) (hW2 : e.W2 = some w2)
    (hstart : ((value.emod 4294967296).toNat) &&& regs.CTRL_START ≠ 0)
    (hreset : ((value.emod 4294967296).toNat) &&& regs.CTRL_RESET = 0)
    (hlen : (e.regs regs.WINDOW_LEN).toNat ≤ e.stream_buf.length) :
    (e.write_reg engine regs.CONTROL value).stream_buf
        = e.stream_buf.drop (e.regs regs.WINDOW_LEN).toNat ∧
    (e.write_reg engine regs.CONTROL value).read_reg regs.STATUS
        = (regs.STS_DONE : Int) ∧
    (e.write_reg engine regs.CONTROL value).read_reg regs.RESULT_CLASS
        = (engine w1 w2 (e.stream_buf.take (e.regs regs.WINDOW_LEN).toNat)
            (e.regs regs.WINDOW_LEN).toNat).pred ∧
    (e.write_reg engine regs.CONTROL value).read_reg regs.COUNT0
        = (engine w1 w2 (e.stream_buf.take (e.regs regs.WINDOW_LEN).toNat)
            (e.regs regs.WINDOW_LEN).toNat).c0 ∧
    (e.write_reg engine regs.CONTROL value).read_reg regs.COUNT1
        = (engine w1 w2 (e.stream_buf.take (e.regs regs.WINDOW_LEN).toNat)
            (e.regs regs.WINDOW_LEN).toNat).c1 ∧
    (e.write_reg engine regs.CONTROL value).read_reg regs.COUNT2
        = (engine w1 w2 (e.stream_buf.take (e.regs regs.WINDOW_LEN).toNat)
            (e.regs regs.WINDOW_LEN).toNat).c2 ∧
    (e.write_reg engine regs.CONTROL value).read_reg regs.CONF_Q15
        = max 0 (min (engine w1 w2
            (e.stream_buf.take (e.regs regs.WINDOW_LEN).toNat)
            (e.regs regs.WINDOW_LEN).toNat).confRaw 32767) := by
  have hrs : (((value.emod 4294967296).toNat) &&& regs.CTRL_RESET ≠ 0) = False := by
    simp [hreset]
  have hst : (((value.emod 4294967296).toNat) &&& regs.CTRL_START ≠ 0) = True := by
    simp [hstart]
  simp only [FPGAEmulator.write_reg, hrs, hst, if_true, if_false]
  rw [start_inference_done engine e w1 w2 hW1 hW2 hlen]
  simp [FPGAEmulator.read_reg, setReg, regs.CONTROL, regs.STATUS,
    regs.RESULT_CLASS, regs.COUNT0, regs.COUNT1, regs.COUNT2, regs.CONF_Q15,
    regs.LATENCY_CYCLES, regs.STS_DONE]

/-- C4 witness: ten queued words, unit weights, and a concrete engine. -/
theorem c4_start_consumes_frame_witness :
    (let e0 : FPGAEmulator Unit :=
      { (FPGAEmulator.mk0 Unit {}).stream_send_masks (List.replicate 12 7) with
        W1 := some (), W2 := some () }
     let eng : Unit → Unit → List Nat → Nat → EngineOut :=
       fun _ _ _ _ => ⟨2, 3, 4, 120, 40000⟩
     e0.W1 = some () ∧ e0.W2 = some () ∧
     (e0.regs regs.WINDOW_LEN).toNat ≤ e0.stream_buf.length ∧
     (e0.write_reg eng regs.CONTROL 1).stream_buf
        = e0.stream_buf.drop (e0.regs regs.WINDOW_LEN).toNat ∧
     (e0.write_reg eng regs.CONTROL 1).read_reg regs.STATUS
        = (regs.STS_DONE : Int) ∧
     (e0.write_reg eng regs.CONTROL 1).read_reg regs.RESULT_CLASS
        = (eng () () (e0.stream_buf.take (e0.regs regs.WINDOW_LEN).toNat)
            (e0.regs regs.WINDOW_LEN).toNat).pred ∧
     (e0.write_reg eng regs.CONTROL 1).read_reg regs.COUNT0
        = (eng () () (e0.stream_buf.take (e0.regs regs.WINDOW_LEN).toNat)
            (e0.regs regs.WINDOW_LEN).toNat).c0 ∧
     (e0.write_reg eng regs.CONTROL 1).read_reg regs.COUNT1
        = (eng () () (e0.stream_buf.take (e0.regs regs.WINDOW_LEN).toNat)
            (e0.regs regs.WINDOW_LEN).toNat).c1 ∧
     (e0.write_reg eng regs.CONTROL 1).read_reg regs.COUNT2
        = (eng () () (e0.stream_buf.take (e0.regs regs.WINDOW_LEN).toNat)
            (e0.regs regs.WINDOW_LEN).toNat).c2 ∧
     (e0.write_reg eng regs.CONTROL 1).read_reg regs.CONF_Q15
        = max 0 (min (eng () () (e0.stream_buf.take
            (e0.regs regs.WINDOW_LEN).toNat)
            (e0.regs regs.WINDOW_LEN).toNat).confRaw 32767)) :=
  ⟨rfl, rfl, by decide,
   c4_start_consumes_frame
     (fun _ _ _ _ => ⟨2, 3, 4, 120, 40000⟩)
     { (FPGAEmulator.mk0 Unit {}).stream_send_masks (List.replicate 12 7) with
       W1 := some (), W2 := some () }
     1 () () rfl rfl (by decide) (by decide) (by decide)⟩

/-- C5 counterexample: the claim quantifies over every value of the other
control bits, but a word with RESET and START both set does not leave
STATUS = 0: on a fresh emulator (no weights), writing CONTROL = 3 performs
the reset and then immediately attempts a start, which fails and leaves
STATUS = ERR = 4. -/
theorem c5_reset_counterexample :
    ¬ (((FPGAEmulator.mk0 Unit {}).write_reg (fun _ _ _ _ => ⟨0, 0, 0, 0, 0⟩)
        regs.CONTROL 3).read_reg regs.STATUS = 0) := by
  decide

/-- C5 (amended): any CONTROL write with the RESET bit set and the START bit
clear — whatever the remaining bits hold — leaves the emulator in the IDLE
configuration: empty stream FIFO, STATUS = 0, RESULT_CLASS = 0,
COUNT0 = COUNT1 = COUNT2 = 0 and CONF_Q15 = 0.  (With START also set, the
reset is followed by a start attempt which can set STATUS to ERR or DONE, as
the counterexample shows.) -/
theorem c5_reset_idle {α : Type}
    (engine : α → α → List Nat → Nat → EngineOut) (e : FPGAEmulator α)
    (value : Int)
    (hreset : ((value.emod 4294967296).toNat) &&& regs.CTRL_RESET ≠ 0)
    (hstart : ((value.emod 4294967296).toNat) &&& regs.CTRL_START = 0) :
    (e.write_reg engine regs.CONTROL value).stream_buf = [] ∧
    (e.write_reg engine regs.CONTROL value).read_reg regs.STATUS = 0 ∧
    (e.write_reg engine regs.CONTROL value).read_reg regs.RESULT_CLASS = 0 ∧
    (e.write_reg engine regs.CONTROL value).read_reg regs.COUNT0 = 0 ∧
    (e.write_reg engine regs.CONTROL value).read_reg regs.COUNT1 = 0 ∧
    (e.write_reg engine regs.CONTROL value).read_reg regs.COUNT2 = 0 ∧
    (e.write_reg engine regs.CONTROL value).read_reg regs.CONF_Q15 = 0 := by
  have hrs : (((value.emod 4294967296).toNat) &&& regs.CTRL_RESET ≠ 0) = True := by
    simp [hreset]
  have hst : (((value.emod 4294967296).toNat) &&& regs.CTRL_START ≠ 0) = False := by
    simp [hstart]
  simp only [FPGAEmulator.write_reg, hrs, hst, if_true, if_false]
  simp [FPGAEmulator.reset, FPGAEmulator.read_reg, setReg, regs.CONTROL,
    regs.STATUS, regs.RESULT_CLASS, regs.COUNT0, regs.COUNT1, regs.COUNT2,
    regs.CONF_Q15, regs.LATENCY_CYCLES]

/-- C5 witness: a RESET write (with the unused INTERRUPT_ENABLE bit also set)
on an emulator with queued words and stale results. -/
theorem c5_reset_idle_witness :
    (((6 : Int).emod 4294967296).toNat &&& regs.CTRL_RESET ≠ 0 ∧
     ((6 : Int).emod 4294967296).toNat &&& regs.CTRL_START = 0) ∧
    (let e0 : FPGAEmulator Unit :=
      (FPGAEmulator.mk0 Unit {}).stream_send_masks [9, 9, 9]
     let eng : Unit → Unit → List Nat → Nat → EngineOut :=
       fun _ _ _ _ => ⟨1, 1, 1, 1, 1⟩
     (e0.write_reg eng regs.CONTROL 6).stream_buf = [] ∧
     (e0.write_reg eng regs.CONTROL 6).read_reg regs.STATUS = 0 ∧
     (e0.write_reg eng regs.CONTROL 6).read_reg regs.RESULT_CLASS = 0 ∧
     (e0.write_reg eng regs.CONTROL 6).read_reg regs.COUNT0 = 0 ∧
     (e0.write_reg eng regs.CONTROL 6).read_reg regs.COUNT1 = 0 ∧
     (e0.write_reg eng regs.CONTROL 6).read_reg regs.COUNT2 = 0 ∧
     (e0.write_reg eng regs.CONTROL 6).read_reg regs.CONF_Q15 = 0) :=
  ⟨⟨by decide, by decide⟩,
   c5_reset_idle (fun _ _ _ _ => ⟨1, 1, 1, 1, 1⟩)
     ((FPGAEmulator.mk0 Unit {}).stream_send_masks [9, 9, 9]) 6
     (by decide) (by decide)⟩

end ENose
